import Mathlib

/-!
# VROOMCanReadWriter: the CAN signal codec of `canReadWriter.cpp`

A shallow embedding of the bit-field codec (`ReadParse`, `WriteParse`), the
signal catalogs and the loop bodies of the reader and encoder threads, with
the properties of the design document proved about them.

Machine integers are natural numbers or integers with the width made
explicit: a 64-bit register is a `Nat` below `2 ^ 64`, read as `long` through
`toLong`.  The operations on `double` are kept abstract (`DoubleOps`), so that
every statement holds for whatever the hardware computes.
-/

set_option autoImplicit false

namespace CanReadWriter

/-! ## Machine integers (LP64: `int` is 32 bits, `long` is 64 bits) -/

/-- One `unsigned char`. -/
abbrev UChar := Fin 256

/-- The value of a 64-bit pattern read as a C `long` (two's complement). -/
def toLong (p : Nat) : Int :=
  if p % 2 ^ 64 < 2 ^ 63 then ((p % 2 ^ 64 : Nat) : Int) else ((p % 2 ^ 64 : Nat) : Int) - 2 ^ 64

/-- The 64-bit pattern of an integer: conversion to `unsigned long`. -/
def toULong (x : Int) : Nat := (x % 2 ^ 64).toNat

/-- Conversion of an integer to C `int`: reduction modulo `2 ^ 32` into
`[-2 ^ 31, 2 ^ 31)`. -/
def toInt (x : Int) : Int := (x + 2 ^ 31) % 2 ^ 32 - 2 ^ 31

/-- Conversion of an integer to C `unsigned int`. -/
def toUInt (x : Int) : Nat := (x % 2 ^ 32).toNat

/-- The shift count the processor uses for an operand of `w` bits: the count
modulo `w`.  For a count in `[0, w)` this is the count itself, which is the
only case C++ defines; outside it the x86-64 shift instructions behave this
way. -/
def shiftCount (w : Nat) (k : Int) : Nat := (k % (w : Int)).toNat

/-- Left shift `p << k` of a 64-bit pattern (`long` or `unsigned long`). -/
def shl64 (p : Nat) (k : Int) : Nat := (p * 2 ^ shiftCount 64 k) % 2 ^ 64

/-- Right shift `p >> k` of an `unsigned long`. -/
def shr64 (p : Nat) (k : Int) : Nat := (p % 2 ^ 64) / 2 ^ shiftCount 64 k

/-- Right shift `x >> k` of a `long` (arithmetic: rounds towards minus infinity). -/
def sar64 (x : Int) (k : Int) : Int := x / 2 ^ shiftCount 64 k

/-- Left shift `x << k` of an `int`, evaluated in 32 bits. -/
def shl32 (x : Int) (k : Int) : Int := toInt (x * 2 ^ shiftCount 32 k)

/-- Subtraction of 64-bit patterns, wrapping. -/
def sub64 (p q : Nat) : Nat := (p % 2 ^ 64 + (2 ^ 64 - q % 2 ^ 64)) % 2 ^ 64

/-- Addition of 64-bit patterns, wrapping. -/
def add64 (p q : Nat) : Nat := (p + q) % 2 ^ 64

/-- Bitwise AND of two `long` values. -/
def and64 (x y : Int) : Int := toLong (toULong x &&& toULong y)

/-- Bitwise OR of two `long` values. -/
def or64 (x y : Int) : Int := toLong (toULong x ||| toULong y)

/-! ## Floating point, kept abstract -/

/-- The operations on `double` used by the source.  Nothing is assumed about
them: every theorem holds for any interpretation, the IEEE one included. -/
structure DoubleOps (F : Type) where
  /-- The conversion `(double) x` of an `int` or a `long`. -/
  ofInt : Int → F
  /-- The decimal literal `m / 10 ^ e`. -/
  ofDecimal : Nat → Nat → F
  /-- The product `a * b`. -/
  mul : F → F → F
  /-- The sum `a + b`. -/
  add : F → F → F
  /-- The quotient `a / b`. -/
  div : F → F → F
  /-- The conversion of a `double` to `unsigned long`. -/
  toUnsignedLong : F → Nat

/-- Exact rational arithmetic as one interpretation of `DoubleOps`. -/
def exactOps : DoubleOps ℚ where
  ofInt x := (x : ℚ)
  ofDecimal m e := (m : ℚ) / 10 ^ e
  mul a b := a * b
  add a b := a + b
  div a b := a / b
  toUnsignedLong q := toULong (q.num / (q.den : Int))

/-! ## Data model -/

/-- Source `struct signalDef`. -/
structure signalDef (F : Type) where
  isExtended : Bool
  name : String
  isSigned : Bool
  startBit : Int
  length : Int
  scale : F
  offset : Int
  unit : String

/-- Source `struct messageDef`. -/
structure messageDef where
  id : Int
  message : Nat
  startBit : Int
  length : Int
deriving DecidableEq, Repr

/-- Source `readSignalMap`, an `unordered_multimap<int, signalDef>`: the
entries in the order of the initialiser list. -/
abbrev readSignalMap (F : Type) := List (Int × signalDef F)

/-- Source `writeMessageMap`, an `unordered_map<string, messageDef>`. -/
abbrev writeMessageMap := List (String × messageDef)

/-- Source `struct canSignal`. -/
structure canSignal (F : Type) where
  name : String
  value : F
  unit : String
deriving DecidableEq, Repr

/-- Source `struct canMessage`.  `data` lists the cells of `unsigned char
data[8]` that hold a byte of the frame, `data[0]` first. -/
structure canMessage where
  id : Int
  data : List UChar
  length : Nat
deriving DecidableEq, Repr

/-- Lookup `m.equal_range(id)`: the definitions stored under the key `id`.
The key type is `int`, so the argument is converted to `int` first. -/
def equal_range {F : Type} (m : readSignalMap F) (id : Int) : List (signalDef F) :=
  (m.filter (fun e => decide (e.1 = toInt id))).map Prod.snd

/-- Lookup `m.count(id)`: how many entries have the key `id`. -/
def count {F : Type} (m : readSignalMap F) (id : Int) : Nat :=
  (m.filter (fun e => decide (e.1 = toInt id))).length

/-- Lookup `m.at(name)`: the template stored under `name`, or nothing where
the source raises `std::out_of_range`. -/
def at_ (m : writeMessageMap) (name : String) : Option messageDef :=
  (m.find? (fun e => e.1 == name)).map Prod.snd

/-! ## The shipped catalogs -/

/-- Source `createHsReadSignalMap`. -/
def createHsReadSignalMap {F : Type} (ops : DoubleOps F) : readSignalMap F :=
  [ (1954, ⟨false, "batteryCurrent", false, 48, 16, ops.ofDecimal 25 3, -1000, "amps"⟩),
    (1954, ⟨false, "batteryVoltage", false, 36, 12, ops.ofDecimal 25 2, 0, "volts"⟩),
    (1954, ⟨false, "batteryTemp", false, 28, 8, ops.ofDecimal 5 1, -40, "Deg C"⟩),
    (1954, ⟨false, "batterySoc", false, 20, 8, ops.ofDecimal 5 1, 0, "%"⟩),
    (1954, ⟨false, "engineTemp", false, 12, 8, ops.ofInt 1, -40, "Deg C"⟩),
    (1955, ⟨false, "engineTorque", false, 4, 12, ops.ofDecimal 5 1, -848, "Nm"⟩),
    (1955, ⟨false, "engineRpm", false, 16, 16, ops.ofDecimal 25 2, 0, "rpm"⟩),
    (1955, ⟨false, "vehicleSpeed", false, 33, 15, ops.ofDecimal 15625 6, 0, "km / h"⟩),
    (1955, ⟨false, "motorTemp", false, 48, 16, ops.ofDecimal 1 1, 0, "degC"⟩),
    (1956, ⟨false, "transRatio", false, 8, 8, ops.ofDecimal 3125 5, 0, ""⟩),
    (1956, ⟨false, "transGear", false, 19, 4, ops.ofInt 1, 0, ""⟩),
    (1956, ⟨false, "vehicleBrake", false, 23, 1, ops.ofInt 1, 0, ""⟩),
    (1956, ⟨false, "vehicleAccel", false, 24, 8, ops.ofDecimal 392156862745098 15, 0, "%"⟩),
    (1956, ⟨false, "motorTorque", true, 32, 16, ops.ofDecimal 1 1, 0, "Nm"⟩),
    (1956, ⟨false, "motorRpm", true, 48, 16, ops.ofInt 1, 0, "rpm"⟩),
    (1957, ⟨false, "chargerCurrent", false, 32, 16, ops.ofDecimal 1 2, 0, "A"⟩),
    (1957, ⟨false, "chargerVoltage", false, 48, 16, ops.ofDecimal 1 1, 0, "V"⟩),
    (1958, ⟨false, "fuelConsumption", false, 52, 12, ops.ofDecimal 25 3, 0, "L/hr"⟩) ]

/-- Source `createLsReadSignalMap`. -/
def createLsReadSignalMap {F : Type} (ops : DoubleOps F) : readSignalMap F :=
  [ (0x102AA000, ⟨true, "gpsLatitude", true, 32, 30,
      ops.div (ops.ofDecimal 10 1) (ops.ofInt 3600000), 0, "deg"⟩),
    (0x102AA000, ⟨true, "gpsLongitude", true, 0, 31,
      ops.div (ops.ofDecimal 10 1) (ops.ofInt 3600000), 0, "deg"⟩) ]

/-- Source `createLsWriteMessageMap`. -/
def createLsWriteMessageMap : writeMessageMap :=
  [ ("diagnosticMode", ⟨0x101, 0x000000003E01FE07, -1, 8⟩),
    ("toggleAc", ⟨0x251, 0x000000010104AE07, -1, 8⟩),
    ("toggleAutoTemp", ⟨0x251, 0x000000080804AE07, -1, 8⟩),
    ("toggleRecirculate", ⟨0x251, 0x000000040404AE07, -1, 8⟩),
    ("toggleRearDefrost", ⟨0x251, 0x000000101004AE07, -1, 8⟩),
    ("toggleDefrost", ⟨0x251, 0x000101000004AE07, -1, 8⟩),
    ("toggleTopVent", ⟨0x251, 0x000000404004AE07, -1, 8⟩),
    ("toggleFloorVent", ⟨0x251, 0x000000808004AE07, -1, 8⟩),
    ("ventFanSpeed", ⟨0x251, 0x000000000802AE07, 56, 8⟩),
    ("driverTemp", ⟨0x251, 0x000000000102AE07, 32, 8⟩),
    ("passengerTemp", ⟨0x251, 0x000000000202AE07, 32, 8⟩) ]

/-- Source `createHsWriteMessageMap`. -/
def createHsWriteMessageMap : writeMessageMap :=
  [ ("hvacCommand", ⟨0x7A0, 0x00, 0, 1⟩) ]

/-! ## The codec -/

/-- What leaves `WriteParse` instead of a frame: the exception of `m.at`. -/
inductive WriteError where
  | out_of_range
deriving DecidableEq, Repr

/-- The store loop of `WriteParse`: `n` rounds of
`data[i] = (unsigned char) message; message = message >> 8`. -/
def storeBytes : Nat → Nat → List UChar
  | 0, _ => []
  | n + 1, message =>
    (⟨message % 256, Nat.mod_lt _ (by decide)⟩ : UChar) :: storeBytes n (shr64 message 8)

/-- Source `WriteParse`.  The frame lists the bytes the loop stores (for a
template length above 8 the source writes past the array, which the model
does not represent). -/
def WriteParse (m : writeMessageMap) (name : String) (value : Nat) :
    Except WriteError canMessage :=
  match at_ m name with
  | none => .error .out_of_range
  | some d =>
    let startBit := d.startBit
    let length := toUInt d.length
    let message := if startBit ≠ -1 then add64 d.message (shl64 value startBit) else d.message
    .ok ⟨d.id, storeBytes (toInt length).toNat message, length⟩

/-- The first loop of `ReadParse`: the frame bytes as one number,
`data += (unsigned long) message[i] << ((length - 1 - i) * 8)`.  A cell beyond
the end of `message` reads as 0. -/
def frameData (message : List UChar) (length : Nat) : Nat :=
  (List.range (toInt length).toNat).foldl
    (fun data i =>
      add64 data (shl64 (message.getD i 0).val (toUInt (((length : Int) - 1 - (i : Int)) * 8))))
    0

/-- The mask of `ReadParse`: `((1l << length) - 1) << startBit`. -/
def fieldMask (length startBit : Int) : Nat :=
  shl64 (sub64 (shl64 1 length) 1) startBit

/-- The integer `tempSignal` that `ReadParse` converts to `double` for one
definition: the masked field, sign-extended with `-1 << length` (an `int`
expression) when the definition is signed and the top bit of the field is set. -/
def tempSignal {F : Type} (ourSignal : signalDef F) (data : Nat) : Int :=
  let mask := fieldMask ourSignal.length ourSignal.startBit
  let t := toLong (shr64 (data &&& mask) ourSignal.startBit)
  if ourSignal.isSigned = true ∧ sar64 t (toInt (ourSignal.length - 1)) ≠ 0 then
    or64 t (shl32 (-1) ourSignal.length)
  else t

/-- The body of the second loop of `ReadParse`: the signal of one definition. -/
def parseSignal {F : Type} (ops : DoubleOps F) (ourSignal : signalDef F) (data : Nat) :
    canSignal F :=
  { name := ourSignal.name
    value := ops.add (ops.mul (ops.ofInt (tempSignal ourSignal data)) ourSignal.scale)
      (ops.ofInt ourSignal.offset)
    unit := ourSignal.unit }

/-- Source `ReadParse`: `id` is the `unsigned long` argument, `message` and
`length` the frame. -/
def ReadParse {F : Type} (ops : DoubleOps F) (m : readSignalMap F) (id : Nat)
    (message : List UChar) (length : Nat) : List (canSignal F) :=
  (equal_range m (id : Int)).foldl
    (fun signals ourSignal => signals ++ [parseSignal ops ourSignal (frameData message length)])
    []

/-! ## The loop bodies of the worker threads -/

/-- What `canReadWait` stores for one received frame. -/
structure canReadWaitResult where
  id : Int
  data : List UChar
  length : Nat
  flags : Nat
deriving DecidableEq, Repr

/-- The mask of `ReadMessages`: `((1 << 16) - 1) << 13`. -/
def extendedIdMask : Int := (((1 <<< 16) - 1) <<< 13 : Nat)

/-- The id of the frame after the extended-id step of `ReadMessages`.
`canMSG_EXT` is the flag bit of the CAN library, whose header is not part of
the repository. -/
def maskedId (canMSG_EXT : Nat) (r : canReadWaitResult) : Int :=
  if r.flags &&& canMSG_EXT ≠ 0 then and64 r.id extendedIdMask else r.id

/-- A queue after one round of a worker loop, with the number printed by the
`WARNING` line of that round, if it was printed. -/
structure QueueStep where
  queue : List canMessage
  warning : Option Nat
deriving DecidableEq, Repr

/-- One round of the loop of `ReadMessages` on a received frame. -/
def ReadMessages_body {F : Type} (canMSG_EXT : Nat) (signalDefinitions : readSignalMap F)
    (readQueue : List canMessage) (r : canReadWaitResult) : QueueStep :=
  let id := maskedId canMSG_EXT r
  if count signalDefinitions id = 0 then ⟨readQueue, none⟩
  else
    let q := readQueue ++ [⟨id, r.data, r.length⟩]
    ⟨q, if q.length ≥ 10 then some q.length else none⟩

/-- The loop of `ReadMessages` over the frames the bus delivers, in order,
with no consumer: the final queue and the warning of every round. -/
def ReadMessages {F : Type} (canMSG_EXT : Nat) (signalDefinitions : readSignalMap F) :
    List canMessage → List canReadWaitResult → List canMessage × List (Option Nat)
  | readQueue, [] => (readQueue, [])
  | readQueue, r :: rs =>
    let s := ReadMessages_body canMSG_EXT signalDefinitions readQueue r
    let rest := ReadMessages canMSG_EXT signalDefinitions s.queue rs
    (rest.1, s.warning :: rest.2)

/-- One round of the loop of `ProcessWriteMessages` on a popped request. -/
def ProcessWriteMessages_body {F : Type} (ops : DoubleOps F)
    (messageDefinitions : writeMessageMap) (processedWriteQueue : List canMessage)
    (signal : canSignal F) : Except WriteError QueueStep :=
  match WriteParse messageDefinitions signal.name (ops.toUnsignedLong signal.value) with
  | .error e => .error e
  | .ok m =>
    let q := processedWriteQueue ++ [m]
    .ok ⟨q, if q.length > 80 then some q.length else none⟩

/-- The loop of `ProcessWriteMessages` over the requests of the write queue,
in order, with no consumer of the processed queue: the processed queue when
the requests are used up or the loop is left, and the exception that left the
loop, if one did.  The loop has no handler, so an exception of a round leaves
it. -/
def ProcessWriteMessages {F : Type} (ops : DoubleOps F) (messageDefinitions : writeMessageMap) :
    List canMessage → List (canSignal F) → List canMessage × Option WriteError
  | processedWriteQueue, [] => (processedWriteQueue, none)
  | processedWriteQueue, signal :: rest =>
    match ProcessWriteMessages_body ops messageDefinitions processedWriteQueue signal with
    | .error e => (processedWriteQueue, some e)
    | .ok s => ProcessWriteMessages ops messageDefinitions s.queue rest

/-- The queue of decoded signals after one round of the decoder loop, with
the number printed by the `WARNING` line of that round, if it was printed. -/
structure SignalQueueStep (F : Type) where
  queue : List (canSignal F)
  warning : Option Nat

/-- One round of the loop of `ProcessReadMessages` on a popped frame: the
frame is decoded, every signal is pushed in order, and the depth is tested
once after the pushes. -/
def ProcessReadMessages_body {F : Type} (ops : DoubleOps F)
    (signalDefinitions : readSignalMap F) (processedReadQueue : List (canSignal F))
    (m : canMessage) : SignalQueueStep F :=
  let signals := ReadParse ops signalDefinitions (toULong m.id) m.data m.length
  let q := signals.foldl (fun queue s => queue ++ [s]) processedReadQueue
  ⟨q, if q.length ≥ 80 then some q.length else none⟩

/-! ## Notions used in the statements -/

/-- The field `(data & mask) >> startBit` that `ReadParse` extracts for one
definition, before sign extension. -/
def rawField {F : Type} (ourSignal : signalDef F) (data : Nat) : Nat :=
  shr64 (data &&& fieldMask ourSignal.length ourSignal.startBit) ourSignal.startBit

/-- The frame integer as the design document defines it: byte `i` of `L`
contributes `b[i] * 256 ^ (L - 1 - i)`, byte 0 being the most significant. -/
def frameInt (b : List UChar) (L : Nat) : Nat :=
  ∑ i in Finset.range L, (b.getD i 0).val * 256 ^ (L - 1 - i)

/-- The number `WriteParse` serialises: the default payload, plus the value
shifted to the injection offset unless the offset is -1. -/
def payloadInt (d : messageDef) (value : Nat) : Nat :=
  if d.startBit = -1 then d.message else (d.message + value * 2 ^ d.startBit.toNat) % 2 ^ 64

/-- An id is a key of a decode catalog when some entry is stored under it;
the key type of the catalog is `int`, so the id is compared as an `int`. -/
def isKey {F : Type} (m : readSignalMap F) (id : Int) : Prop :=
  ∃ e ∈ m, e.1 = toInt id

/-- The frame `ReadMessages` queues for a received frame. -/
def queuedFrame (canMSG_EXT : Nat) (r : canReadWaitResult) : canMessage :=
  ⟨maskedId canMSG_EXT r, r.data, r.length⟩

/-- The layout condition of one definition: the field lies inside the 64 bits
of the frame integer. -/
def layoutOk {F : Type} (d : signalDef F) : Prop :=
  0 ≤ d.startBit ∧ 1 ≤ d.length ∧ d.length ≤ 64 ∧ d.startBit + d.length ≤ 64

/-! ## Machine-integer lemmas -/

theorem shiftCount_of_lt (w : Nat) (k : Int) (h0 : 0 ≤ k) (hw : k < (w : Int)) :
    shiftCount w k = k.toNat := by
  unfold shiftCount
  rw [Int.emod_eq_of_lt h0 hw]

theorem shiftCount_natCast (w k : Nat) (hw : k < w) : shiftCount w (k : Int) = k := by
  rw [shiftCount_of_lt w k (by omega) (by omega)]
  simp

theorem toLong_of_lt (p : Nat) (h : p < 2 ^ 63) : toLong p = (p : Int) := by
  unfold toLong
  have h1 : p % 2 ^ 64 = p := Nat.mod_eq_of_lt (by omega)
  rw [h1, if_pos h]

theorem toInt_of_range (x : Int) (h0 : -2 ^ 31 ≤ x) (h1 : x < 2 ^ 31) : toInt x = x := by
  unfold toInt
  rw [Int.emod_eq_of_lt (by omega) (by omega)]
  omega

theorem toUInt_natCast (n : Nat) (h : n < 2 ^ 32) : toUInt (n : Int) = n := by
  unfold toUInt
  rw [Int.emod_eq_of_lt (by omega) (by omega)]
  simp

/-! ## The frame integer -/

theorem frameTerm_eq (b : List UChar) (L i : Nat) (hL : L ≤ 8) (hi : i < L) :
    shl64 (b.getD i 0).val (toUInt (((L : Int) - 1 - (i : Int)) * 8))
      = (b.getD i 0).val * 256 ^ (L - 1 - i) := by
  have hk : (((L : Int) - 1 - (i : Int)) * 8) = (((L - 1 - i) * 8 : Nat) : Int) := by
    omega
  have hb : (b.getD i 0).val < 256 := (b.getD i 0).isLt
  rw [hk, toUInt_natCast _ (by omega)]
  unfold shl64
  rw [shiftCount_natCast _ _ (by omega)]
  have hp : (2 : Nat) ^ ((L - 1 - i) * 8) = 256 ^ (L - 1 - i) := by
    rw [Nat.mul_comm, pow_mul]
    norm_num
  rw [hp]
  apply Nat.mod_eq_of_lt
  calc (b.getD i 0).val * 256 ^ (L - 1 - i)
      < 256 * 256 ^ (L - 1 - i) := by
        apply Nat.mul_lt_mul_of_pos_right hb (by positivity)
    _ = 256 ^ (L - 1 - i + 1) := by rw [pow_succ, Nat.mul_comm]
    _ ≤ 256 ^ 8 := Nat.pow_le_pow_right (by decide) (by omega)
    _ = 2 ^ 64 := by norm_num

theorem frameInt_partial_bound (b : List UChar) (L k : Nat) (hk : k ≤ L) :
    (∑ i in Finset.range k, (b.getD i 0).val * 256 ^ (L - 1 - i)) + 256 ^ (L - k) ≤ 256 ^ L := by
  induction k with
  | zero => simp
  | succ k ih =>
    have ih1 := ih (by omega)
    rw [Finset.sum_range_succ]
    have hb : (b.getD k 0).val < 256 := (b.getD k 0).isLt
    have e1 : L - k = (L - (k + 1)) + 1 := by omega
    have e2 : L - 1 - k = L - (k + 1) := by omega
    rw [e1, pow_succ] at ih1
    rw [e2]
    have : (b.getD k 0).val * 256 ^ (L - (k + 1)) + 256 ^ (L - (k + 1))
        ≤ 256 ^ (L - (k + 1)) * 256 := by
      have h' : (b.getD k 0).val + 1 ≤ 256 := hb
      calc (b.getD k 0).val * 256 ^ (L - (k + 1)) + 256 ^ (L - (k + 1))
          = ((b.getD k 0).val + 1) * 256 ^ (L - (k + 1)) := by ring
        _ ≤ 256 * 256 ^ (L - (k + 1)) := Nat.mul_le_mul_right _ h'
        _ = 256 ^ (L - (k + 1)) * 256 := Nat.mul_comm _ _
    omega

theorem frameInt_lt (b : List UChar) (L : Nat) : frameInt b L < 256 ^ L := by
  have h := frameInt_partial_bound b L L (le_refl _)
  simp only [Nat.sub_self, pow_zero] at h
  unfold frameInt
  omega

theorem frameInt_lt_two_pow (b : List UChar) (L : Nat) (hL : L ≤ 8) : frameInt b L < 2 ^ 64 := by
  have h := frameInt_lt b L
  have h2 : (256 : Nat) ^ L ≤ 256 ^ 8 := Nat.pow_le_pow_right (by decide) hL
  have h3 : (256 : Nat) ^ 8 = 2 ^ 64 := by norm_num
  omega

theorem frameData_fold (b : List UChar) (L k : Nat) (hL : L ≤ 8) (hk : k ≤ L) :
    (List.range k).foldl
      (fun data i =>
        add64 data (shl64 (b.getD i 0).val (toUInt (((L : Int) - 1 - (i : Int)) * 8))))
      0
      = ∑ i in Finset.range k, (b.getD i 0).val * 256 ^ (L - 1 - i) := by
  induction k with
  | zero => simp
  | succ k ih =>
    rw [List.range_succ, List.foldl_append, ih (by omega), Finset.sum_range_succ]
    simp only [List.foldl_cons, List.foldl_nil]
    rw [frameTerm_eq b L k hL (by omega)]
    unfold add64
    apply Nat.mod_eq_of_lt
    have h := frameInt_partial_bound b L (k + 1) hk
    rw [Finset.sum_range_succ] at h
    have h2 : (256 : Nat) ^ L ≤ 256 ^ 8 := Nat.pow_le_pow_right (by decide) hL
    have h3 : (256 : Nat) ^ 8 = 2 ^ 64 := by norm_num
    have h4 : 0 < 256 ^ (L - (k + 1)) := by positivity
    omega

/-- The first loop of `ReadParse` computes the big-endian frame integer. -/
theorem frameData_eq_frameInt (b : List UChar) (L : Nat) (hL : L ≤ 8) :
    frameData b L = frameInt b L := by
  unfold frameData frameInt
  rw [toInt_of_range (L : Int) (by omega) (by omega)]
  simpa using frameData_fold b L L hL (le_refl _)

/-! ## Mask and field extraction -/

theorem fieldMask_eq (length startBit : Int) (h1 : 0 ≤ length) (h63 : length ≤ 63)
    (hs : 0 ≤ startBit) (hsum : startBit + length ≤ 64) :
    fieldMask length startBit = (2 ^ length.toNat - 1) * 2 ^ startBit.toNat := by
  have hN : length.toNat ≤ 63 := by omega
  have hS : startBit.toNat + length.toNat ≤ 64 := by omega
  have hpN : (2 : Nat) ^ length.toNat ≤ 2 ^ 63 := Nat.pow_le_pow_right (by decide) hN
  have hpos : 0 < (2 : Nat) ^ length.toNat := by positivity
  unfold fieldMask
  have e1 : shl64 1 length = 2 ^ length.toNat := by
    unfold shl64
    rw [shiftCount_of_lt 64 length h1 (by omega), Nat.one_mul]
    exact Nat.mod_eq_of_lt (by omega)
  have e2 : sub64 (2 ^ length.toNat) 1 = 2 ^ length.toNat - 1 := by
    unfold sub64
    rw [Nat.mod_eq_of_lt (show (2 : Nat) ^ length.toNat < 2 ^ 64 by omega)]
    norm_num
    omega
  rw [e1, e2]
  unfold shl64
  by_cases h64 : startBit < 64
  · rw [shiftCount_of_lt 64 startBit hs (by simpa using h64)]
    apply Nat.mod_eq_of_lt
    calc (2 ^ length.toNat - 1) * 2 ^ startBit.toNat
        < 2 ^ length.toNat * 2 ^ startBit.toNat :=
          Nat.mul_lt_mul_of_pos_right (by omega) (by positivity)
      _ = 2 ^ (length.toNat + startBit.toNat) := by rw [pow_add]
      _ ≤ 2 ^ 64 := Nat.pow_le_pow_right (by decide) (by omega)
  · have hl : length = 0 := by omega
    subst hl
    simp

theorem and_mask_div (data N S : Nat) :
    (data &&& ((2 ^ N - 1) * 2 ^ S)) / 2 ^ S = (data / 2 ^ S) % 2 ^ N := by
  rw [← Nat.shiftLeft_eq, ← Nat.shiftRight_eq_div_pow, ← Nat.shiftRight_eq_div_pow,
    ← Nat.and_pow_two_sub_one_eq_mod]
  apply Nat.eq_of_testBit_eq
  intro j
  simp [Nat.testBit_shiftRight, Nat.testBit_shiftLeft, Bool.and_comm]

/-- The masked field of a frame integer below `2 ^ 64` is the number made of
its bits `startBit .. startBit + length - 1`. -/
theorem masked_field_eq (data : Nat) (length startBit : Int) (hdata : data < 2 ^ 64)
    (h1 : 0 ≤ length) (h63 : length ≤ 63) (hs : 0 ≤ startBit) (hsum : startBit + length ≤ 64) :
    shr64 (data &&& fieldMask length startBit) startBit
      = (data / 2 ^ startBit.toNat) % 2 ^ length.toNat := by
  rw [fieldMask_eq length startBit h1 h63 hs hsum]
  unfold shr64
  have hlt : data &&& ((2 ^ length.toNat - 1) * 2 ^ startBit.toNat) < 2 ^ 64 :=
    lt_of_le_of_lt Nat.and_le_left hdata
  rw [Nat.mod_eq_of_lt hlt]
  by_cases h64 : startBit < 64
  · rw [shiftCount_of_lt 64 startBit hs (by simpa using h64), and_mask_div]
  · have hl : length = 0 := by omega
    subst hl
    simp [Nat.mod_one]

theorem field_lt (data N S : Nat) (hN : N ≤ 63) : (data / 2 ^ S) % 2 ^ N < 2 ^ 63 :=
  lt_of_lt_of_le (Nat.mod_lt _ (by positivity)) (Nat.pow_le_pow_right (by decide) hN)

/-- For an unsigned definition inside the 64 bits, `tempSignal` is the field. -/
theorem tempSignal_unsigned {F : Type} (d : signalDef F) (data : Nat) (hdata : data < 2 ^ 64)
    (hu : d.isSigned = false) (h1 : 0 ≤ d.length) (h63 : d.length ≤ 63) (hs : 0 ≤ d.startBit)
    (hsum : d.startBit + d.length ≤ 64) :
    tempSignal d data = (((data / 2 ^ d.startBit.toNat) % 2 ^ d.length.toNat : Nat) : Int) := by
  unfold tempSignal
  simp only [hu, Bool.false_eq_true, false_and, if_false]
  rw [masked_field_eq data d.length d.startBit hdata h1 h63 hs hsum]
  exact toLong_of_lt _ (field_lt _ _ _ (by omega))

theorem foldl_push_eq_map {α β : Type} (f : α → β) (l : List α) (acc : List β) :
    l.foldl (fun signals x => signals ++ [f x]) acc = acc ++ l.map f := by
  induction l generalizing acc with
  | nil => simp
  | cons x xs ih => simp [ih]

/-- The second loop of `ReadParse` emits one signal per definition stored
under the id, in the order of the lookup. -/
theorem ReadParse_eq_map {F : Type} (ops : DoubleOps F) (m : readSignalMap F) (id : Nat)
    (message : List UChar) (length : Nat) :
    ReadParse ops m id message length
      = (equal_range m (id : Int)).map
          (fun ourSignal => parseSignal ops ourSignal (frameData message length)) := by
  unfold ReadParse
  rw [foldl_push_eq_map]
  simp

/-! ## Decoding an unsigned field -/

/-- C1: `ReadParse` decodes an unsigned field as the design document defines
it.  For a frame of declared length `L ≤ 8` with bytes `b`, and the `j`-th
definition `d` stored under the frame id, unsigned, with
`1 ≤ length ≤ 63`, `0 ≤ startBit` and `startBit + length ≤ 64`, the `j`-th
emitted signal carries the name and unit of `d` and the value
`raw * scale + offset`, where `raw = (frameInt / 2 ^ startBit) mod 2 ^ length`
and `frameInt` is the sum of `b[i] * 256 ^ (L - 1 - i)`. -/
theorem ReadParse_unsigned_field {F : Type} (ops : DoubleOps F) (m : readSignalMap F)
    (id : Nat) (b : List UChar) (L : Nat) (j : Nat) (d : signalDef F)
    (hL : L ≤ 8) (_hb : b.length = L)
    (hd : (equal_range m (id : Int))[j]? = some d)
    (hu : d.isSigned = false) (h1 : 1 ≤ d.length) (h63 : d.length ≤ 63)
    (hs : 0 ≤ d.startBit) (hsum : d.startBit + d.length ≤ 64) :
    (ReadParse ops m id b L)[j]? = some
      { name := d.name
        value := ops.add
          (ops.mul
            (ops.ofInt
              (((∑ i in Finset.range L, (b.getD i 0).val * 256 ^ (L - 1 - i))
                  / 2 ^ d.startBit.toNat % 2 ^ d.length.toNat : Nat) : Int))
            d.scale)
          (ops.ofInt d.offset)
        unit := d.unit } := by
  have hdata : frameData b L < 2 ^ 64 := by
    rw [frameData_eq_frameInt b L hL]
    exact frameInt_lt_two_pow b L hL
  rw [ReadParse_eq_map, List.getElem?_map, hd]
  simp only [Option.map_some', parseSignal]
  rw [tempSignal_unsigned d _ hdata hu (by omega) h63 hs hsum, frameData_eq_frameInt b L hL]
  rfl

/-- C1, at a concrete input: the frame `00 00 00 01 00 00 00 FF` of the
high-speed catalog under id 1954, first definition (`batteryCurrent`). -/
theorem ReadParse_unsigned_field_witness :
    (ReadParse exactOps (createHsReadSignalMap exactOps) 1954 [0, 0, 0, 1, 0, 0, 0, 255] 8)[0]?
      = some
        { name := "batteryCurrent"
          value := exactOps.add
            (exactOps.mul
              (exactOps.ofInt
                (((∑ i in Finset.range 8,
                      (([0, 0, 0, 1, 0, 0, 0, 255] : List UChar).getD i 0).val * 256 ^ (8 - 1 - i))
                    / 2 ^ (48 : Int).toNat % 2 ^ (16 : Int).toNat : Nat) : Int))
              (exactOps.ofDecimal 25 3))
            (exactOps.ofInt (-1000))
          unit := "amps" } :=
  ReadParse_unsigned_field exactOps (createHsReadSignalMap exactOps) 1954
    [0, 0, 0, 1, 0, 0, 0, 255] 8 0
    ⟨false, "batteryCurrent", false, 48, 16, exactOps.ofDecimal 25 3, -1000, "amps"⟩
    (by decide) rfl rfl rfl (by decide) (by decide) (by decide) (by decide)

/-! ## The store loop of `WriteParse` -/

theorem shr64_eight (p : Nat) (hp : p < 2 ^ 64) : shr64 p 8 = p / 256 := by
  unfold shr64
  rw [Nat.mod_eq_of_lt hp, shiftCount_of_lt 64 8 (by decide) (by decide)]
  rfl

theorem storeBytes_length (n p : Nat) : (storeBytes n p).length = n := by
  induction n generalizing p with
  | zero => rfl
  | succ n ih => simp [storeBytes, ih]

theorem storeBytes_getD (n p i : Nat) (hp : p < 2 ^ 64) (hi : i < n) :
    ((storeBytes n p).getD i 0).val = (p / 256 ^ i) % 256 := by
  induction n generalizing p i with
  | zero => omega
  | succ n ih =>
    cases i with
    | zero => simp [storeBytes]
    | succ i =>
      have hq : p / 256 < 2 ^ 64 := lt_of_le_of_lt (Nat.div_le_self _ _) hp
      simp only [storeBytes, List.getD_cons_succ]
      rw [shr64_eight p hp, ih (p / 256) i hq (by omega), Nat.div_div_eq_div_mul, pow_succ,
        Nat.mul_comm]

theorem WriteParse_of_at (m : writeMessageMap) (name : String) (d : messageDef) (value : Nat)
    (hname : at_ m name = some d) (hlen0 : 0 ≤ d.length) (hlen8 : d.length ≤ 8)
    (hsb : d.startBit = -1 ∨ (0 ≤ d.startBit ∧ d.startBit < 64)) :
    WriteParse m name value
      = .ok ⟨d.id, storeBytes d.length.toNat (payloadInt d value), d.length.toNat⟩ := by
  unfold WriteParse
  rw [hname]
  have hL : toUInt d.length = d.length.toNat := by
    have h := toUInt_natCast d.length.toNat (by omega)
    rwa [Int.toNat_of_nonneg hlen0] at h
  have hI : toInt ((d.length.toNat : Nat) : Int) = d.length := by
    rw [Int.toNat_of_nonneg hlen0]
    exact toInt_of_range _ (by omega) (by omega)
  simp only [hL, hI]
  have hp : (if d.startBit ≠ -1 then add64 d.message (shl64 value d.startBit) else d.message)
      = payloadInt d value := by
    unfold payloadInt
    rcases hsb with h | ⟨h0, h1⟩
    · simp [h]
    · have hne : d.startBit ≠ -1 := by omega
      simp only [hne, ne_eq, not_false_eq_true, if_true, if_false]
      unfold add64 shl64
      rw [shiftCount_of_lt 64 d.startBit h0 (by simpa using h1)]
      simp [Nat.add_mod]
  rw [hp]

theorem payloadInt_lt (d : messageDef) (value : Nat) (hm : d.message < 2 ^ 64) :
    payloadInt d value < 2 ^ 64 := by
  unfold payloadInt
  split
  · exact hm
  · exact Nat.mod_lt _ (by positivity)

/-- C2: `WriteParse` encodes as the design document defines it.  For a name
stored in the write catalog with template `d` (payload length at most the 8
cells of the frame; injection offset either -1, "none", or a bit position 0
to 63) and every 64-bit unsigned value, the frame has the id and the declared
length of `d`, and byte `i < length` is `(payloadInt / 256 ^ i) mod 256`, with
`payloadInt = (default + value * 2 ^ startBit) mod 2 ^ 64`, or the default
alone when the offset is -1; then the frame does not depend on the value. -/
theorem WriteParse_encodes (m : writeMessageMap) (name : String) (d : messageDef) (value : Nat)
    (hname : at_ m name = some d) (_hv : value < 2 ^ 64) (hm : d.message < 2 ^ 64)
    (hlen0 : 0 ≤ d.length) (hlen8 : d.length ≤ 8)
    (hsb : d.startBit = -1 ∨ (0 ≤ d.startBit ∧ d.startBit < 64)) :
    ∃ c : canMessage, WriteParse m name value = .ok c
      ∧ c.id = d.id ∧ (c.length : Int) = d.length ∧ c.data.length = c.length
      ∧ (∀ i, i < c.length →
          (c.data.getD i 0).val
            = ((if d.startBit = -1 then d.message
                else (d.message + value * 2 ^ d.startBit.toNat) % 2 ^ 64) / 256 ^ i) % 256)
      ∧ (d.startBit = -1 → ∀ value2 : Nat, WriteParse m name value2 = .ok c) := by
  refine ⟨⟨d.id, storeBytes d.length.toNat (payloadInt d value), d.length.toNat⟩,
    WriteParse_of_at m name d value hname hlen0 hlen8 hsb, rfl, ?_, ?_, ?_, ?_⟩
  · exact Int.toNat_of_nonneg hlen0
  · exact storeBytes_length _ _
  · intro i hi
    exact storeBytes_getD _ _ i (payloadInt_lt d value hm) hi
  · intro h value2
    rw [WriteParse_of_at m name d value2 hname hlen0 hlen8 hsb]
    simp [payloadInt, h]

/-- C2, at concrete inputs: `driverTemp` of the low-speed write catalog
(injection offset 32) with the value 5, and `diagnosticMode` (offset -1) with
the value 7. -/
theorem WriteParse_encodes_witness :
    (∃ c : canMessage, WriteParse createLsWriteMessageMap "driverTemp" 5 = .ok c
      ∧ c.id = 0x251 ∧ (c.length : Int) = 8 ∧ c.data.length = c.length
      ∧ (∀ i, i < c.length →
          (c.data.getD i 0).val
            = ((if (32 : Int) = -1 then 0x000000000102AE07
                else (0x000000000102AE07 + 5 * 2 ^ (32 : Int).toNat) % 2 ^ 64) / 256 ^ i) % 256)
      ∧ ((32 : Int) = -1 →
          ∀ value2 : Nat, WriteParse createLsWriteMessageMap "driverTemp" value2 = .ok c))
    ∧ (∃ c : canMessage, WriteParse createLsWriteMessageMap "diagnosticMode" 7 = .ok c
      ∧ c.id = 0x101 ∧ (c.length : Int) = 8 ∧ c.data.length = c.length
      ∧ (∀ i, i < c.length →
          (c.data.getD i 0).val
            = ((if (-1 : Int) = -1 then 0x000000003E01FE07
                else (0x000000003E01FE07 + 7 * 2 ^ (-1 : Int).toNat) % 2 ^ 64) / 256 ^ i) % 256)
      ∧ ((-1 : Int) = -1 →
          ∀ value2 : Nat, WriteParse createLsWriteMessageMap "diagnosticMode" value2 = .ok c)) :=
  ⟨WriteParse_encodes createLsWriteMessageMap "driverTemp" ⟨0x251, 0x000000000102AE07, 32, 8⟩ 5
      (by decide) (by decide) (by decide) (by decide) (by decide) (by decide),
   WriteParse_encodes createLsWriteMessageMap "diagnosticMode" ⟨0x101, 0x000000003E01FE07, -1, 8⟩
      7 (by decide) (by decide) (by decide) (by decide) (by decide) (by decide)⟩

/-! ## Byte order: the encoder against the decoder -/

theorem sum_bytes_eq_mod (p n : Nat) :
    (∑ j in Finset.range n, ((p / 256 ^ j) % 256) * 256 ^ j) = p % 256 ^ n := by
  induction n with
  | zero => simp [Nat.mod_one]
  | succ n ih =>
    rw [Finset.sum_range_succ, ih, Nat.mod_pow_succ, Nat.mul_comm]

theorem getD_reverse_val (l : List UChar) (i : Nat) (hi : i < l.length) :
    l.reverse.getD i 0 = l.getD (l.length - 1 - i) 0 := by
  rw [List.getD_eq_getElem?_getD, List.getD_eq_getElem?_getD, List.getElem?_reverse hi]

/-- The frame integer the decoder rebuilds from the stored bytes taken in
reverse order is the number the encoder serialised. -/
theorem frameInt_reverse_storeBytes (n p : Nat) (hp : p < 2 ^ 64) :
    frameInt (storeBytes n p).reverse n = p % 256 ^ n := by
  unfold frameInt
  rw [← sum_bytes_eq_mod p n,
    ← Finset.sum_range_reflect (fun j => ((p / 256 ^ j) % 256) * 256 ^ j) n]
  apply Finset.sum_congr rfl
  intro i hi
  have hi2 : i < n := Finset.mem_range.mp hi
  have hlen : (storeBytes n p).length = n := storeBytes_length n p
  rw [getD_reverse_val _ i (by omega), hlen, storeBytes_getD n p (n - 1 - i) hp (by omega)]

/-- Decoding with a catalog of one definition, looked up under its key. -/
theorem ReadParse_singleton {F : Type} (ops : DoubleOps F) (k : Int) (d : signalDef F)
    (id : Nat) (message : List UChar) (length : Nat) (hid : toInt (id : Int) = k) :
    ReadParse ops [(k, d)] id message length = [parseSignal ops d (frameData message length)] := by
  rw [ReadParse_eq_map]
  simp [equal_range, hid]

/-- C3, as stated, fails: `WriteParse` stores the least significant byte first
and `ReadParse` reads the first byte as the most significant.  Encoding
`raw = 1` at `startBit = 0` (default payload 0, length 8) gives the bytes
`01 00 00 00 00 00 00 00`; decoding them as an unsigned 8-bit field at
`startBit = 0` with scale 1 and offset 0 gives the value 0, not 1.  And for a
field of 64 bits the mask `(1l << 64) - 1` is 0, so that even the reversed
bytes decode to 0. -/
theorem roundtrip_direct_counterexample :
    WriteParse [("x", ⟨1, 0, 0, 8⟩)] "x" 1 = .ok ⟨1, [1, 0, 0, 0, 0, 0, 0, 0], 8⟩
      ∧ ReadParse exactOps [(1, ⟨false, "x", false, 0, 8, 1, 0, "u"⟩)] 1
          [1, 0, 0, 0, 0, 0, 0, 0] 8 = [⟨"x", 0, "u"⟩]
      ∧ exactOps.add (exactOps.mul (exactOps.ofInt 1) 1) (exactOps.ofInt 0) = 1
      ∧ ReadParse exactOps [(1, ⟨false, "x", false, 0, 64, 1, 0, "u"⟩)] 1
          ([1, 0, 0, 0, 0, 0, 0, 0] : List UChar).reverse 8 = [⟨"x", 0, "u"⟩] := by
  have h8 : tempSignal (⟨false, "x", false, 0, 8, 1, 0, "u"⟩ : signalDef ℚ)
      (frameData [1, 0, 0, 0, 0, 0, 0, 0] 8) = 0 := by decide
  have h64 : tempSignal (⟨false, "x", false, 0, 64, 1, 0, "u"⟩ : signalDef ℚ)
      (frameData ([1, 0, 0, 0, 0, 0, 0, 0] : List UChar).reverse 8) = 0 := by decide
  have hk : toInt ((1 : Nat) : Int) = 1 := by decide
  refine ⟨by rfl, ?_, ?_, ?_⟩
  · rw [ReadParse_singleton _ _ _ _ _ _ hk]
    simp only [parseSignal]
    rw [h8]
    simp [exactOps]
  · simp [exactOps]
  · rw [ReadParse_singleton _ _ _ _ _ _ hk]
    simp only [parseSignal]
    rw [h64]
    simp [exactOps]

/-- C3, amended: the round trip holds for the bytes of `WriteParse` taken in
reverse order and a field of at most 63 bits.  For `0 ≤ startBit`,
`1 ≤ length ≤ 63`, `startBit + length ≤ 64` and `raw < 2 ^ length`, encoding
`raw` through a template with default payload 0, injection offset `startBit`
and payload length 8, and decoding the eight bytes in reverse order under an
unsigned definition with the same `startBit` and `length`, yields exactly one
signal, of value `raw * scale + offset`. -/
theorem roundtrip_reversed {F : Type} (ops : DoubleOps F) (m : writeMessageMap) (name : String)
    (tid k : Int) (id : Nat) (d : signalDef F) (raw : Nat)
    (hname : at_ m name = some ⟨tid, 0, d.startBit, 8⟩) (hid : toInt (id : Int) = k)
    (hu : d.isSigned = false) (hs : 0 ≤ d.startBit) (h1 : 1 ≤ d.length) (h63 : d.length ≤ 63)
    (hsum : d.startBit + d.length ≤ 64) (hraw : raw < 2 ^ d.length.toNat) :
    ∃ c : canMessage, WriteParse m name raw = .ok c ∧ c.data.length = 8
      ∧ ReadParse ops [(k, d)] id c.data.reverse 8
          = [⟨d.name, ops.add (ops.mul (ops.ofInt (raw : Int)) d.scale) (ops.ofInt d.offset),
              d.unit⟩] := by
  have hS : d.startBit.toNat + d.length.toNat ≤ 64 := by omega
  have hp : raw * 2 ^ d.startBit.toNat < 2 ^ 64 :=
    calc raw * 2 ^ d.startBit.toNat
        < 2 ^ d.length.toNat * 2 ^ d.startBit.toNat :=
          Nat.mul_lt_mul_of_pos_right hraw (by positivity)
      _ = 2 ^ (d.length.toNat + d.startBit.toNat) := by rw [pow_add]
      _ ≤ 2 ^ 64 := Nat.pow_le_pow_right (by decide) (by omega)
  have hpay : payloadInt ⟨tid, 0, d.startBit, 8⟩ raw = raw * 2 ^ d.startBit.toNat := by
    unfold payloadInt
    have hne : d.startBit ≠ -1 := by omega
    simp only [hne, if_false, Nat.zero_add]
    exact Nat.mod_eq_of_lt hp
  have hlt : d.startBit < 64 := by omega
  have hW := WriteParse_of_at m name ⟨tid, 0, d.startBit, 8⟩ raw hname
    (show (0 : Int) ≤ 8 by decide) (show (8 : Int) ≤ 8 by decide) (Or.inr ⟨hs, hlt⟩)
  rw [hpay] at hW
  refine ⟨_, hW, storeBytes_length _ _, ?_⟩
  rw [ReadParse_singleton ops k d id _ 8 hid]
  have hfd : frameData (storeBytes 8 (raw * 2 ^ d.startBit.toNat)).reverse 8
      = raw * 2 ^ d.startBit.toNat := by
    rw [frameData_eq_frameInt _ 8 (le_refl _)]
    have h := frameInt_reverse_storeBytes 8 (raw * 2 ^ d.startBit.toNat) hp
    rw [h]
    exact Nat.mod_eq_of_lt (by simpa using hp)
  show [parseSignal ops d (frameData (storeBytes 8 (raw * 2 ^ d.startBit.toNat)).reverse 8)] = _
  rw [hfd]
  simp only [parseSignal]
  rw [tempSignal_unsigned d _ hp hu (by omega) h63 hs hsum,
    Nat.mul_div_cancel _ (by positivity), Nat.mod_eq_of_lt hraw]

/-- C3, amended, at a concrete input: raw 5 in an 8-bit field at bit 32. -/
theorem roundtrip_reversed_witness :
    ∃ c : canMessage, WriteParse [("x", ⟨1, 0, 32, 8⟩)] "x" 5 = .ok c ∧ c.data.length = 8
      ∧ ReadParse exactOps [(1, ⟨false, "x", false, 32, 8, 3, 7, "u"⟩)] 1 c.data.reverse 8
          = [⟨"x", exactOps.add (exactOps.mul (exactOps.ofInt ((5 : Nat) : Int)) 3)
              (exactOps.ofInt 7), "u"⟩] :=
  roundtrip_reversed exactOps [("x", ⟨1, 0, 32, 8⟩)] "x" 1 1 1
    ⟨false, "x", false, 32, 8, 3, 7, "u"⟩ 5
    (by decide) (by decide) rfl (by decide) (by decide) (by decide) (by decide) (by decide)

/-! ## Sign extension -/

/-- No value of the `int` expression `-1 << 33` repairs the 33-bit case: OR-ing
a sign-extended `int` into the field `2 ^ 32` never gives `2 ^ 32 - 2 ^ 33`. -/
theorem or64_int_ne (v : Int) (h0 : -2 ^ 31 ≤ v) (h1 : v < 2 ^ 31) :
    or64 (2 ^ 32) v ≠ -2 ^ 32 := by
  intro h
  unfold or64 toLong at h
  have hu : ((toULong v : Nat) : Int) = v % 2 ^ 64 := by
    unfold toULong
    exact Int.toNat_of_nonneg (Int.emod_nonneg _ (by norm_num))
  have hc : toULong (2 ^ 32) = 2 ^ 32 := by decide
  rw [hc] at h
  have hlt : 2 ^ 32 ||| toULong v < 2 ^ 64 := by
    apply Nat.or_lt_two_pow (by norm_num)
    omega
  rw [Nat.mod_eq_of_lt hlt] at h
  have hP : 2 ^ 32 ||| toULong v = 2 ^ 64 - 2 ^ 32 := by
    split at h <;> omega
  have b31 : (2 ^ 32 ||| toULong v).testBit 31 = false := by rw [hP]; decide
  have b63 : (2 ^ 32 ||| toULong v).testBit 63 = true := by rw [hP]; decide
  rw [Nat.testBit_or] at b31 b63
  have c31 : (toULong v).testBit 31 = false := by
    cases hb : (toULong v).testBit 31
    · rfl
    · rw [hb] at b31; simp at b31
  have c63 : (toULong v).testBit 63 = true := by
    have : (2 ^ 32 : Nat).testBit 63 = false := by decide
    rw [this] at b63
    simpa using b63
  rw [Nat.testBit_to_div_mod] at c31 c63
  simp only [decide_eq_false_iff_not, decide_eq_true_eq] at c31 c63
  omega

/-- C4 at the failing input: a signed definition of 33 bits at bit 0 and the
frame `00 00 00 01 00 00 00 00`.  The field is `2 ^ 32`, its top bit is set,
two's-complement widening gives `2 ^ 32 - 2 ^ 33 = -4294967296`; the source
ORs in the `int` expression `-1 << 33` and scales -2.  An 8-bit field `0xFF`
does give -1. -/
theorem signed_33_bit_field_evaluation :
    (frameInt [0, 0, 0, 1, 0, 0, 0, 0] 8 / 2 ^ 0) % 2 ^ 33 = 2 ^ 32
      ∧ tempSignal (⟨false, "x", true, 0, 33, 1, 0, "u"⟩ : signalDef ℚ)
          (frameData [0, 0, 0, 1, 0, 0, 0, 0] 8) = -2
      ∧ ((2 : Int) ^ 32 - 2 ^ 33 = -4294967296)
      ∧ ReadParse exactOps [(1, ⟨false, "x", true, 0, 33, 1, 0, "u"⟩)] 1
          [0, 0, 0, 1, 0, 0, 0, 0] 8 = [⟨"x", -2, "u"⟩]
      ∧ tempSignal (⟨false, "x", true, 0, 8, 1, 0, "u"⟩ : signalDef ℚ) (frameData [0xFF] 1) = -1 := by
  have h33 : tempSignal (⟨false, "x", true, 0, 33, 1, 0, "u"⟩ : signalDef ℚ)
      (frameData [0, 0, 0, 1, 0, 0, 0, 0] 8) = -2 := by decide
  have hk : toInt ((1 : Nat) : Int) = 1 := by decide
  refine ⟨?_, h33, by norm_num, ?_, by decide⟩
  · rw [← frameData_eq_frameInt _ 8 (le_refl _)]
    decide
  · rw [ReadParse_singleton _ _ _ _ _ _ hk]
    simp only [parseSignal]
    rw [h33]
    simp [exactOps]

/-! ## Unknown names in the encoder -/

/-- For a name that is a key of the write catalog `WriteParse` returns a frame. -/
theorem WriteParse_of_key (m : writeMessageMap) (name : String) (d : messageDef) (value : Nat)
    (hname : at_ m name = some d) : ∃ c : canMessage, WriteParse m name value = .ok c := by
  unfold WriteParse
  rw [hname]
  exact ⟨_, rfl⟩

/-- For a name that is not a key, `WriteParse` raises `out_of_range`, and the
loop of `ProcessWriteMessages` is left with the processed queue as it was,
whatever requests follow. -/
theorem ProcessWriteMessages_of_unknown {F : Type} (ops : DoubleOps F) (m : writeMessageMap)
    (processedWriteQueue : List canMessage) (signal : canSignal F) (rest : List (canSignal F))
    (hname : at_ m signal.name = none) :
    WriteParse m signal.name (ops.toUnsignedLong signal.value) = .error .out_of_range
      ∧ ProcessWriteMessages ops m processedWriteQueue (signal :: rest)
          = (processedWriteQueue, some .out_of_range) := by
  have hW : WriteParse m signal.name (ops.toUnsignedLong signal.value)
      = .error .out_of_range := by
    unfold WriteParse
    rw [hname]
  refine ⟨hW, ?_⟩
  simp only [ProcessWriteMessages, ProcessWriteMessages_body, hW]

/-- C8 at the failing input: the requests `noSuchSignal`, then `hvacCommand`
with value 1, on the high-speed bus.  `WriteParse` raises `out_of_range` for
the first, the loop is left with the processed queue still empty, and the
second request is never encoded; alone, it is encoded to the frame
`7A0 [01]`. -/
theorem unknown_name_leaves_encoder_loop :
    WriteParse createHsWriteMessageMap "noSuchSignal" 0 = .error .out_of_range
      ∧ ProcessWriteMessages exactOps createHsWriteMessageMap []
          [⟨"noSuchSignal", 0, ""⟩, ⟨"hvacCommand", 1, ""⟩] = ([], some .out_of_range)
      ∧ ProcessWriteMessages exactOps createHsWriteMessageMap [] [⟨"hvacCommand", 1, ""⟩]
          = ([⟨0x7A0, [1], 1⟩], none) := by
  have h1 : exactOps.toUnsignedLong (1 : ℚ) = 1 := by
    simp [exactOps, toULong]
  have h0 : exactOps.toUnsignedLong (0 : ℚ) = 0 := by
    simp [exactOps, toULong]
  refine ⟨by rfl, ?_, ?_⟩
  · simp only [ProcessWriteMessages, ProcessWriteMessages_body, h0]
    rfl
  · simp only [ProcessWriteMessages, ProcessWriteMessages_body, h1]
    rfl

/-! ## Routing and filtering by message id -/

theorem count_eq_zero_of_not_isKey {F : Type} (m : readSignalMap F) (id : Int)
    (h : ¬ isKey m id) : count m id = 0 := by
  unfold count
  rw [List.length_eq_zero, List.filter_eq_nil_iff]
  intro e he
  simp only [decide_eq_true_eq]
  intro heq
  exact h ⟨e, he, heq⟩

theorem equal_range_length {F : Type} (m : readSignalMap F) (id : Int) :
    (equal_range m id).length = count m id := by
  simp [equal_range, count]

theorem count_pos_of_isKey {F : Type} (m : readSignalMap F) (id : Int)
    (h : isKey m id) : 0 < count m id := by
  obtain ⟨e, he, heq⟩ := h
  unfold count
  apply List.length_pos_of_mem (a := e)
  rw [List.mem_filter]
  exact ⟨he, by simpa using heq⟩

/-- AND with a mask of `N` ones starting at bit `S` keeps the bits `S` to
`S + N - 1` in place and clears every other bit. -/
theorem and_shifted_mask (u N S : Nat) :
    u &&& ((2 ^ N - 1) * 2 ^ S) = ((u / 2 ^ S) % 2 ^ N) * 2 ^ S := by
  rw [← Nat.shiftLeft_eq, ← Nat.shiftLeft_eq, ← Nat.shiftRight_eq_div_pow,
    ← Nat.and_pow_two_sub_one_eq_mod]
  apply Nat.eq_of_testBit_eq
  intro j
  by_cases h : S ≤ j
  · simp [Nat.testBit_shiftLeft, Nat.testBit_shiftRight, h, Nat.add_sub_cancel' h,
      Bool.and_comm]
  · simp [Nat.testBit_shiftLeft, Nat.testBit_shiftRight, h]

/-- The AND of a `long` with the extended-id mask, in arithmetic: the 16 bits
13 to 28 of the two's-complement pattern stay in place, every other bit is
cleared. -/
theorem and64_extendedIdMask (x : Int) :
    and64 x 0x1FFFE000 = (x / 2 ^ 13 % 2 ^ 16) * 2 ^ 13 := by
  have hm : toULong 0x1FFFE000 = (2 ^ 16 - 1) * 2 ^ 13 := by decide
  have hu : ((toULong x : Nat) : Int) = x % 2 ^ 64 := by
    unfold toULong
    exact Int.toNat_of_nonneg (Int.emod_nonneg _ (by norm_num))
  unfold and64
  rw [hm, and_shifted_mask]
  have hlt : toULong x / 2 ^ 13 % 2 ^ 16 * 2 ^ 13 < 2 ^ 63 := by
    have h1 : toULong x / 2 ^ 13 % 2 ^ 16 < 2 ^ 16 := Nat.mod_lt _ (by positivity)
    omega
  rw [toLong_of_lt _ hlt]
  push_cast
  rw [hu]
  omega

/-- For a non-negative `long` the AND is the AND of the natural numbers, and
bit `k` of the result is bit `k` of the id for `13 ≤ k < 29` and 0 elsewhere. -/
theorem and64_extendedIdMask_testBit (x : Int) (h0 : 0 ≤ x) (h63 : x < 2 ^ 63) :
    and64 x 0x1FFFE000 = ((x.toNat &&& 0x1FFFE000 : Nat) : Int)
      ∧ ∀ k, (and64 x 0x1FFFE000).toNat.testBit k
          = (decide (13 ≤ k ∧ k < 29) && x.toNat.testBit k) := by
  have hm : toULong 0x1FFFE000 = 0x1FFFE000 := by decide
  have hx : toULong x = x.toNat := by
    unfold toULong
    rw [Int.emod_eq_of_lt h0 (by omega)]
  have hle : x.toNat &&& 0x1FFFE000 ≤ 0x1FFFE000 := Nat.and_le_right
  have he : and64 x 0x1FFFE000 = ((x.toNat &&& 0x1FFFE000 : Nat) : Int) := by
    unfold and64
    rw [hm, hx]
    exact toLong_of_lt _ (by omega)
  refine ⟨he, ?_⟩
  intro k
  rw [he, Int.toNat_ofNat, Nat.testBit_and]
  have hM : (0x1FFFE000 : Nat) = (2 ^ 16 - 1) <<< 13 := by decide
  rw [hM, Nat.testBit_shiftLeft, Nat.testBit_two_pow_sub_one, Bool.and_comm]
  congr 1
  by_cases h1 : 13 ≤ k <;> by_cases h2 : k < 29 <;> simp [h1, h2] <;> omega

/-- C5: extended-id masking and routing.  With the extended flag set the
reader replaces the raw id `x` by `x AND 0x1FFFE000`, which is
`((1 << 16) - 1) << 13`: the result is `(x / 2 ^ 13 mod 2 ^ 16) * 2 ^ 13`, so
that the bits 13 to 28 of `x` stay in place and every other bit is cleared
(`0x102AA123` becomes `0x102AA000`); without the flag the id is unchanged.
When the masked id is `0x102AA000` (as for `x = 0x102AA000` itself), it is a
key of the low-speed catalog, the frame is appended to the frame queue under
that id, and `ReadParse` on it with any 8-byte payload returns exactly two
signals, named `gpsLatitude` and `gpsLongitude`. -/
theorem extended_id_masking_and_routing {F : Type} (ops : DoubleOps F) (canMSG_EXT : Nat)
    (readQueue : List canMessage) (r : canReadWaitResult) :
    (r.flags &&& canMSG_EXT ≠ 0 → maskedId canMSG_EXT r = and64 r.id 0x1FFFE000)
      ∧ (r.flags &&& canMSG_EXT = 0 → maskedId canMSG_EXT r = r.id)
      ∧ (r.flags &&& canMSG_EXT ≠ 0 → and64 r.id 0x1FFFE000 = 0x102AA000 →
          isKey (createLsReadSignalMap ops) (maskedId canMSG_EXT r)
          ∧ (ReadMessages_body canMSG_EXT (createLsReadSignalMap ops) readQueue r).queue
              = readQueue ++ [⟨0x102AA000, r.data, r.length⟩]
          ∧ ∀ payload : List UChar, payload.length = 8 →
              (ReadParse ops (createLsReadSignalMap ops) (toULong (maskedId canMSG_EXT r))
                payload 8).map (fun s => s.name) = ["gpsLatitude", "gpsLongitude"])
      ∧ and64 0x102AA000 0x1FFFE000 = 0x102AA000
      ∧ extendedIdMask = 0x1FFFE000
      ∧ (r.flags &&& canMSG_EXT ≠ 0 →
          maskedId canMSG_EXT r = (r.id / 2 ^ 13 % 2 ^ 16) * 2 ^ 13)
      ∧ (r.flags &&& canMSG_EXT ≠ 0 → 0 ≤ r.id → r.id < 2 ^ 63 →
          maskedId canMSG_EXT r = ((r.id.toNat &&& 0x1FFFE000 : Nat) : Int)
          ∧ ∀ k, (maskedId canMSG_EXT r).toNat.testBit k
              = (decide (13 ≤ k ∧ k < 29) && r.id.toNat.testBit k))
      ∧ (r.flags &&& canMSG_EXT ≠ 0 → (r.id / 2 ^ 13 % 2 ^ 16) * 2 ^ 13 = 0x102AA000 →
          isKey (createLsReadSignalMap ops) (maskedId canMSG_EXT r)
          ∧ (ReadMessages_body canMSG_EXT (createLsReadSignalMap ops) readQueue r).queue
              = readQueue ++ [⟨0x102AA000, r.data, r.length⟩]
          ∧ ∀ payload : List UChar, payload.length = 8 →
              (ReadParse ops (createLsReadSignalMap ops) (toULong (maskedId canMSG_EXT r))
                payload 8).map (fun s => s.name) = ["gpsLatitude", "gpsLongitude"]) := by
  have hmask : extendedIdMask = 0x1FFFE000 := by decide
  have hk : toInt 0x102AA000 = 0x102AA000 := by decide
  have hext : r.flags &&& canMSG_EXT ≠ 0 → maskedId canMSG_EXT r = and64 r.id 0x1FFFE000 := by
    intro h
    simp only [maskedId, h, ne_eq, not_false_eq_true, if_true, hmask]
  have hroute : maskedId canMSG_EXT r = 0x102AA000 →
      isKey (createLsReadSignalMap ops) (maskedId canMSG_EXT r)
      ∧ (ReadMessages_body canMSG_EXT (createLsReadSignalMap ops) readQueue r).queue
          = readQueue ++ [⟨0x102AA000, r.data, r.length⟩]
      ∧ ∀ payload : List UChar, payload.length = 8 →
          (ReadParse ops (createLsReadSignalMap ops) (toULong (maskedId canMSG_EXT r))
            payload 8).map (fun s => s.name) = ["gpsLatitude", "gpsLongitude"] := by
    intro hid
    rw [hid]
    refine ⟨?_, ?_, ?_⟩
    · refine ⟨(createLsReadSignalMap ops).head (by simp [createLsReadSignalMap]), ?_, ?_⟩
      · simp [createLsReadSignalMap]
      · simp [createLsReadSignalMap, hk]
    · have hc : count (createLsReadSignalMap ops) 0x102AA000 = 2 := by
        simp [count, createLsReadSignalMap, hk]
      simp only [ReadMessages_body, hid, hc]
      simp
    · intro payload _
      have hu : ((toULong 0x102AA000 : Nat) : Int) = 0x102AA000 := by decide
      rw [ReadParse_eq_map, hu]
      simp [equal_range, createLsReadSignalMap, hk, parseSignal]
  refine ⟨hext, ?_, ?_, by decide, hmask, ?_, ?_, ?_⟩
  · intro h
    simp [maskedId, h]
  · intro h hx
    exact hroute (by rw [hext h]; exact hx)
  · intro h
    rw [hext h]
    exact and64_extendedIdMask r.id
  · intro h h0 h63
    rw [hext h]
    exact and64_extendedIdMask_testBit r.id h0 h63
  · intro h hx
    exact hroute (by rw [hext h, and64_extendedIdMask]; exact hx)

/-- C5, at concrete inputs: the extended frame with raw id `0x102AA000`
(flags 4), a standard frame with id 1954 (flags 0), and the extended frame
with raw id `0x102AA123`, which is not a key of the low-speed catalog before
the mask clears its bits 0, 1, 5 and 8 and is routed after it; the extended
flag being bit 2. -/
theorem extended_id_masking_and_routing_witness :
    (maskedId 4 ⟨0x102AA000, [1, 2, 3, 4, 5, 6, 7, 8], 8, 4⟩ = and64 0x102AA000 0x1FFFE000)
      ∧ (maskedId 4 ⟨1954, [1, 2, 3, 4, 5, 6, 7, 8], 8, 0⟩ = 1954)
      ∧ (isKey (createLsReadSignalMap exactOps)
            (maskedId 4 ⟨0x102AA000, [1, 2, 3, 4, 5, 6, 7, 8], 8, 4⟩)
          ∧ (ReadMessages_body 4 (createLsReadSignalMap exactOps) []
              ⟨0x102AA000, [1, 2, 3, 4, 5, 6, 7, 8], 8, 4⟩).queue
              = [] ++ [⟨0x102AA000, [1, 2, 3, 4, 5, 6, 7, 8], 8⟩]
          ∧ (ReadParse exactOps (createLsReadSignalMap exactOps)
                (toULong (maskedId 4 ⟨0x102AA000, [1, 2, 3, 4, 5, 6, 7, 8], 8, 4⟩))
                [1, 2, 3, 4, 5, 6, 7, 8] 8).map (fun s => s.name)
              = ["gpsLatitude", "gpsLongitude"])
      ∧ (maskedId 4 ⟨0x102AA123, [1, 2, 3, 4, 5, 6, 7, 8], 8, 4⟩
            = ((0x102AA123 : Int) / 2 ^ 13 % 2 ^ 16) * 2 ^ 13
          ∧ ((0x102AA123 : Int) / 2 ^ 13 % 2 ^ 16) * 2 ^ 13 = 0x102AA000
          ∧ ¬ isKey (createLsReadSignalMap exactOps) 0x102AA123)
      ∧ (maskedId 4 ⟨0x102AA123, [1, 2, 3, 4, 5, 6, 7, 8], 8, 4⟩
            = (((0x102AA123 : Int).toNat &&& 0x1FFFE000 : Nat) : Int)
          ∧ (maskedId 4 ⟨0x102AA123, [1, 2, 3, 4, 5, 6, 7, 8], 8, 4⟩).toNat.testBit 0
              = (decide (13 ≤ 0 ∧ 0 < 29) && (0x102AA123 : Int).toNat.testBit 0)
          ∧ (0x102AA123 : Int).toNat.testBit 0 = true)
      ∧ (isKey (createLsReadSignalMap exactOps)
            (maskedId 4 ⟨0x102AA123, [1, 2, 3, 4, 5, 6, 7, 8], 8, 4⟩)
          ∧ (ReadMessages_body 4 (createLsReadSignalMap exactOps) []
              ⟨0x102AA123, [1, 2, 3, 4, 5, 6, 7, 8], 8, 4⟩).queue
              = [] ++ [⟨0x102AA000, [1, 2, 3, 4, 5, 6, 7, 8], 8⟩]
          ∧ (ReadParse exactOps (createLsReadSignalMap exactOps)
                (toULong (maskedId 4 ⟨0x102AA123, [1, 2, 3, 4, 5, 6, 7, 8], 8, 4⟩))
                [1, 2, 3, 4, 5, 6, 7, 8] 8).map (fun s => s.name)
              = ["gpsLatitude", "gpsLongitude"]) :=
  have hrouted := (extended_id_masking_and_routing exactOps 4 []
      ⟨0x102AA000, [1, 2, 3, 4, 5, 6, 7, 8], 8, 4⟩).2.2.1 (by decide) (by decide)
  have hbits := (extended_id_masking_and_routing exactOps 4 []
      ⟨0x102AA123, [1, 2, 3, 4, 5, 6, 7, 8], 8, 4⟩).2.2.2.2.2.2.1 (by decide) (by decide)
      (by decide)
  have hrouted2 := (extended_id_masking_and_routing exactOps 4 []
      ⟨0x102AA123, [1, 2, 3, 4, 5, 6, 7, 8], 8, 4⟩).2.2.2.2.2.2.2 (by decide) (by decide)
  ⟨(extended_id_masking_and_routing exactOps 4 []
      ⟨0x102AA000, [1, 2, 3, 4, 5, 6, 7, 8], 8, 4⟩).1 (by decide),
   (extended_id_masking_and_routing exactOps 4 []
      ⟨1954, [1, 2, 3, 4, 5, 6, 7, 8], 8, 0⟩).2.1 (by decide),
   ⟨hrouted.1, hrouted.2.1, hrouted.2.2 [1, 2, 3, 4, 5, 6, 7, 8] rfl⟩,
   ⟨(extended_id_masking_and_routing exactOps 4 []
      ⟨0x102AA123, [1, 2, 3, 4, 5, 6, 7, 8], 8, 4⟩).2.2.2.2.2.1 (by decide),
    by decide,
    by
      have hk : toInt 0x102AA123 = 0x102AA123 := by decide
      simp [isKey, createLsReadSignalMap, hk]⟩,
   ⟨hbits.1, hbits.2 0, by decide⟩,
   ⟨hrouted2.1, hrouted2.2.1, hrouted2.2.2 [1, 2, 3, 4, 5, 6, 7, 8] rfl⟩⟩

/-- C6: filtering.  For every catalog: `ReadParse` on an id that is not a key
returns no signal; one round of the reader loop on a frame whose (masked) id
is not a key leaves the frame queue unchanged and prints no warning; and on
an id that is a key `ReadParse` returns as many signals as the catalog has
entries under that id, at least one. -/
theorem unknown_id_is_filtered {F : Type} (ops : DoubleOps F) (canMSG_EXT : Nat)
    (m : readSignalMap F) :
    (∀ (id : Nat) (payload : List UChar) (length : Nat),
        ¬ isKey m (id : Int) → ReadParse ops m id payload length = [])
      ∧ (∀ (readQueue : List canMessage) (r : canReadWaitResult),
        ¬ isKey m (maskedId canMSG_EXT r) →
          ReadMessages_body canMSG_EXT m readQueue r = ⟨readQueue, none⟩)
      ∧ (∀ (id : Nat) (payload : List UChar) (length : Nat),
        isKey m (id : Int) →
          (ReadParse ops m id payload length).length
              = (m.filter (fun e => decide (e.1 = toInt (id : Int)))).length
            ∧ 0 < (ReadParse ops m id payload length).length) := by
  refine ⟨?_, ?_, ?_⟩
  · intro id payload length h
    have hc := count_eq_zero_of_not_isKey m id h
    rw [← equal_range_length, List.length_eq_zero] at hc
    rw [ReadParse_eq_map, hc]
    rfl
  · intro readQueue r h
    have hc := count_eq_zero_of_not_isKey m _ h
    simp [ReadMessages_body, hc]
  · intro id payload length h
    have hc := count_pos_of_isKey m id h
    rw [ReadParse_eq_map, List.length_map, equal_range_length]
    exact ⟨rfl, hc⟩

/-- C6, at concrete inputs: id 7 is not a key of the high-speed catalog, id
1954 is one, with five entries. -/
theorem unknown_id_is_filtered_witness :
    ReadParse exactOps (createHsReadSignalMap exactOps) 7 [1, 2, 3, 4, 5, 6, 7, 8] 8 = []
      ∧ ReadMessages_body 4 (createHsReadSignalMap exactOps) []
          ⟨7, [1, 2, 3, 4, 5, 6, 7, 8], 8, 0⟩ = ⟨[], none⟩
      ∧ ((ReadParse exactOps (createHsReadSignalMap exactOps) 1954
            [1, 2, 3, 4, 5, 6, 7, 8] 8).length
          = ((createHsReadSignalMap exactOps).filter
              (fun e => decide (e.1 = toInt ((1954 : Nat) : Int)))).length
        ∧ 0 < (ReadParse exactOps (createHsReadSignalMap exactOps) 1954
            [1, 2, 3, 4, 5, 6, 7, 8] 8).length) :=
  ⟨(unknown_id_is_filtered exactOps 4 (createHsReadSignalMap exactOps)).1 7
      [1, 2, 3, 4, 5, 6, 7, 8] 8
      (by
        have hk : toInt 7 = 7 := by decide
        simp [isKey, createHsReadSignalMap, hk]),
   (unknown_id_is_filtered exactOps 4 (createHsReadSignalMap exactOps)).2.1 []
      ⟨7, [1, 2, 3, 4, 5, 6, 7, 8], 8, 0⟩
      (by
        have hk : toInt 7 = 7 := by decide
        simp [isKey, createHsReadSignalMap, maskedId, hk]),
   (unknown_id_is_filtered exactOps 4 (createHsReadSignalMap exactOps)).2.2 1954
      [1, 2, 3, 4, 5, 6, 7, 8] 8
      (by
        have hk : toInt 1954 = 1954 := by decide
        simp [isKey, createHsReadSignalMap, hk])⟩

/-! ## Several signals in one frame -/

theorem field_congr (x y S N : Nat)
    (h : ∀ k, S ≤ k → k < S + N → x.testBit k = y.testBit k) :
    (x / 2 ^ S) % 2 ^ N = (y / 2 ^ S) % 2 ^ N := by
  apply Nat.eq_of_testBit_eq
  intro j
  rw [Nat.testBit_mod_two_pow, Nat.testBit_mod_two_pow, ← Nat.shiftRight_eq_div_pow,
    ← Nat.shiftRight_eq_div_pow, Nat.testBit_shiftRight, Nat.testBit_shiftRight]
  by_cases hj : j < N
  · rw [h (S + j) (by omega) (by omega)]
  · simp [hj]

/-- The signal of an unsigned definition inside the 64 bits depends only on
the bits of the frame integer in the range of the definition. -/
theorem parseSignal_congr {F : Type} (ops : DoubleOps F) (d : signalDef F) (x y : Nat)
    (hx : x < 2 ^ 64) (hy : y < 2 ^ 64) (hu : d.isSigned = false) (h1 : 0 ≤ d.length)
    (h63 : d.length ≤ 63) (hs : 0 ≤ d.startBit) (hsum : d.startBit + d.length ≤ 64)
    (h : ∀ k, d.startBit.toNat ≤ k → k < d.startBit.toNat + d.length.toNat →
      x.testBit k = y.testBit k) :
    parseSignal ops d x = parseSignal ops d y := by
  simp only [parseSignal]
  rw [tempSignal_unsigned d x hx hu h1 h63 hs hsum, tempSignal_unsigned d y hy hu h1 h63 hs hsum,
    field_congr x y _ _ h]

theorem equal_range_hs_1954 {F : Type} (ops : DoubleOps F) :
    equal_range (createHsReadSignalMap ops) ((1954 : Nat) : Int)
      = [ ⟨false, "batteryCurrent", false, 48, 16, ops.ofDecimal 25 3, -1000, "amps"⟩,
          ⟨false, "batteryVoltage", false, 36, 12, ops.ofDecimal 25 2, 0, "volts"⟩,
          ⟨false, "batteryTemp", false, 28, 8, ops.ofDecimal 5 1, -40, "Deg C"⟩,
          ⟨false, "batterySoc", false, 20, 8, ops.ofDecimal 5 1, 0, "%"⟩,
          ⟨false, "engineTemp", false, 12, 8, ops.ofInt 1, -40, "Deg C"⟩ ] := by
  rfl

/-- C7: the multi-signal frame 1954.  For 8-byte payloads `p` and `q`,
`ReadParse` with the high-speed catalog returns exactly the five signals
`batteryCurrent`, `batteryVoltage`, `batteryTemp`, `batterySoc`, `engineTemp`;
when `p` and `q` agree on the bits `startBit .. startBit + length - 1` of the
big-endian frame integer for one of the five definitions, they give that
signal the same value, whatever the other bits; and the five bit ranges are
pairwise disjoint. -/
theorem multi_signal_frame_1954 {F : Type} (ops : DoubleOps F) (p q : List UChar)
    (_hp : p.length = 8) (_hq : q.length = 8) :
    (ReadParse ops (createHsReadSignalMap ops) 1954 p 8).map (fun s => s.name)
        = ["batteryCurrent", "batteryVoltage", "batteryTemp", "batterySoc", "engineTemp"]
      ∧ (∀ (j : Nat) (d : signalDef F),
          (equal_range (createHsReadSignalMap ops) ((1954 : Nat) : Int))[j]? = some d →
          (∀ k, d.startBit.toNat ≤ k → k < d.startBit.toNat + d.length.toNat →
            (frameInt p 8).testBit k = (frameInt q 8).testBit k) →
          (ReadParse ops (createHsReadSignalMap ops) 1954 p 8)[j]?
            = (ReadParse ops (createHsReadSignalMap ops) 1954 q 8)[j]?)
      ∧ List.Pairwise
          (fun d e : signalDef F =>
            d.startBit + d.length ≤ e.startBit ∨ e.startBit + e.length ≤ d.startBit)
          (equal_range (createHsReadSignalMap ops) ((1954 : Nat) : Int)) := by
  refine ⟨?_, ?_, ?_⟩
  · rw [ReadParse_eq_map, equal_range_hs_1954]
    rfl
  · intro j d hd hbits
    have hx : frameData p 8 < 2 ^ 64 := by
      rw [frameData_eq_frameInt p 8 (le_refl _)]
      exact frameInt_lt_two_pow p 8 (le_refl _)
    have hy : frameData q 8 < 2 ^ 64 := by
      rw [frameData_eq_frameInt q 8 (le_refl _)]
      exact frameInt_lt_two_pow q 8 (le_refl _)
    rw [ReadParse_eq_map, ReadParse_eq_map, List.getElem?_map, List.getElem?_map, hd]
    simp only [Option.map_some', Option.some.injEq]
    rw [← frameData_eq_frameInt p 8 (le_refl _), ← frameData_eq_frameInt q 8 (le_refl _)] at hbits
    have hmem : d ∈ equal_range (createHsReadSignalMap ops) ((1954 : Nat) : Int) :=
      List.getElem?_mem hd
    rw [equal_range_hs_1954] at hmem
    simp only [List.mem_cons, List.mem_singleton, List.not_mem_nil, or_false] at hmem
    rcases hmem with h | h | h | h | h <;> subst h <;>
      exact parseSignal_congr ops _ _ _ hx hy rfl (by simp) (by simp) (by simp)
        (by simp) hbits
  · rw [equal_range_hs_1954]
    simp only [List.pairwise_cons, List.mem_cons, List.mem_singleton, forall_eq_or_imp, forall_eq,
      List.not_mem_nil, false_implies, implies_true, List.Pairwise.nil, and_true]
    decide

/-- C7, at concrete inputs: two payloads that differ only in the last byte
(bits 0 to 7 of the frame integer) give `batteryCurrent` (bits 48 to 63) the
same value. -/
theorem multi_signal_frame_1954_witness :
    (ReadParse exactOps (createHsReadSignalMap exactOps) 1954 [1, 2, 3, 4, 5, 6, 7, 8] 8)[0]?
      = (ReadParse exactOps (createHsReadSignalMap exactOps) 1954 [1, 2, 3, 4, 5, 6, 7, 9] 8)[0]? :=
  (multi_signal_frame_1954 exactOps [1, 2, 3, 4, 5, 6, 7, 8] [1, 2, 3, 4, 5, 6, 7, 9] rfl rfl).2.1 0
    ⟨false, "batteryCurrent", false, 48, 16, exactOps.ofDecimal 25 3, -1000, "amps"⟩ rfl
    (by
      intro k h1 h2
      have e1 : frameInt [1, 2, 3, 4, 5, 6, 7, 8] 8 = 0x0102030405060708 := by
        rw [← frameData_eq_frameInt _ 8 (le_refl _)]; decide
      have e2 : frameInt [1, 2, 3, 4, 5, 6, 7, 9] 8 = 0x0102030405060709 := by
        rw [← frameData_eq_frameInt _ 8 (le_refl _)]; decide
      rw [e1, e2]
      have h3 : 48 ≤ k := h1
      have h4 : k < 64 := h2
      interval_cases k <;> decide)

/-! ## The frame queue of the reader -/

theorem ReadMessages_body_of_key {F : Type} (canMSG_EXT : Nat) (m : readSignalMap F)
    (readQueue : List canMessage) (r : canReadWaitResult)
    (h : count m (maskedId canMSG_EXT r) ≠ 0) :
    ReadMessages_body canMSG_EXT m readQueue r
      = ⟨readQueue ++ [queuedFrame canMSG_EXT r],
          if 10 ≤ readQueue.length + 1 then some (readQueue.length + 1) else none⟩ := by
  simp [ReadMessages_body, h, queuedFrame]

theorem ReadMessages_of_keys {F : Type} (canMSG_EXT : Nat) (m : readSignalMap F)
    (rs : List canReadWaitResult) (readQueue : List canMessage)
    (h : ∀ r ∈ rs, count m (maskedId canMSG_EXT r) ≠ 0) :
    ReadMessages canMSG_EXT m readQueue rs
      = (readQueue ++ rs.map (queuedFrame canMSG_EXT),
          (List.range rs.length).map
            (fun i => if 10 ≤ readQueue.length + (i + 1) then some (readQueue.length + (i + 1))
              else none)) := by
  induction rs generalizing readQueue with
  | nil => simp [ReadMessages]
  | cons r rs ih =>
    have hr := h r (List.mem_cons_self _ _)
    have hrs : ∀ x ∈ rs, count m (maskedId canMSG_EXT x) ≠ 0 :=
      fun x hx => h x (List.mem_cons_of_mem _ hx)
    simp only [ReadMessages, ReadMessages_body_of_key canMSG_EXT m readQueue r hr, ih _ hrs]
    simp only [List.length_cons, List.range_succ_eq_map, List.map_cons, List.map_map,
      List.append_assoc, List.singleton_append, List.length_append, List.length_singleton,
      Prod.mk.injEq, true_and, List.cons.injEq]
    apply List.map_congr_left
    intro i _
    simp only [Function.comp_apply, List.length_nil, Nat.zero_add, Nat.succ_eq_add_one]
    have e : readQueue.length + 1 + (i + 1) = readQueue.length + (i + 1 + 1) := by omega
    rw [e]

/-- C9: backpressure on the frame queue is advisory only.  From an empty
queue with no consumer, after the reader loop has handled `n` frames whose
ids are all keys of the catalog, the queue holds exactly those `n` frames in
arrival order, and the `k`-th push (counted from 1) prints the warning, with
the queue length `k`, exactly when `k ≥ 10`; with 11 frames the 10th and the
11th push warn and the queue has 11 frames. -/
theorem frame_queue_backpressure_advisory {F : Type} (canMSG_EXT : Nat) (m : readSignalMap F)
    (rs : List canReadWaitResult) (h : ∀ r ∈ rs, count m (maskedId canMSG_EXT r) ≠ 0) :
    (ReadMessages canMSG_EXT m [] rs).1 = rs.map (queuedFrame canMSG_EXT)
      ∧ (ReadMessages canMSG_EXT m [] rs).2
          = (List.range rs.length).map (fun i => if 10 ≤ i + 1 then some (i + 1) else none)
      ∧ (rs.length = 11 →
          (ReadMessages canMSG_EXT m [] rs).1.length = 11
          ∧ (ReadMessages canMSG_EXT m [] rs).2
              = [none, none, none, none, none, none, none, none, none, some 10, some 11]) := by
  have hrun := ReadMessages_of_keys canMSG_EXT m rs [] h
  simp only [List.nil_append, List.length_nil, Nat.zero_add] at hrun
  rw [hrun]
  refine ⟨rfl, rfl, ?_⟩
  intro h11
  simp only [List.length_map, h11, true_and]
  rfl

/-- C9, at a concrete input: eleven frames with id 1954 on the high-speed bus. -/
theorem frame_queue_backpressure_advisory_witness :
    (ReadMessages 4 (createHsReadSignalMap exactOps) []
        (List.replicate 11 ⟨1954, [1, 2, 3, 4, 5, 6, 7, 8], 8, 0⟩)).1
        = (List.replicate 11 (⟨1954, [1, 2, 3, 4, 5, 6, 7, 8], 8, 0⟩ : canReadWaitResult)).map
            (queuedFrame 4)
      ∧ (ReadMessages 4 (createHsReadSignalMap exactOps) []
            (List.replicate 11 ⟨1954, [1, 2, 3, 4, 5, 6, 7, 8], 8, 0⟩)).1.length = 11
      ∧ (ReadMessages 4 (createHsReadSignalMap exactOps) []
          (List.replicate 11 ⟨1954, [1, 2, 3, 4, 5, 6, 7, 8], 8, 0⟩)).2
          = [none, none, none, none, none, none, none, none, none, some 10, some 11] :=
  have hkeys : ∀ r ∈ List.replicate 11 (⟨1954, [1, 2, 3, 4, 5, 6, 7, 8], 8, 0⟩ : canReadWaitResult),
      count (createHsReadSignalMap exactOps) (maskedId 4 r) ≠ 0 := by
    intro r hr
    rw [List.eq_of_mem_replicate hr]
    decide
  have hrun := frame_queue_backpressure_advisory 4 (createHsReadSignalMap exactOps)
    (List.replicate 11 ⟨1954, [1, 2, 3, 4, 5, 6, 7, 8], 8, 0⟩) hkeys
  ⟨hrun.1, (hrun.2.2 rfl).1, (hrun.2.2 rfl).2⟩

/-! ## The bit layout of the shipped catalogs -/

/-- C10: every definition of the high-speed and of the low-speed decode
catalog has `startBit ≥ 0`, `1 ≤ length ≤ 64` and `startBit + length ≤ 64`. -/
theorem catalog_bit_layout {F : Type} (ops : DoubleOps F) :
    (∀ e ∈ createHsReadSignalMap ops, layoutOk e.2)
      ∧ (∀ e ∈ createLsReadSignalMap ops, layoutOk e.2) := by
  constructor
  · intro e he
    simp only [createHsReadSignalMap, List.mem_cons, List.mem_singleton, List.not_mem_nil,
      or_false] at he
    rcases he with h | h | h | h | h | h | h | h | h | h | h | h | h | h | h | h | h | h <;>
      subst h <;> simp [layoutOk]
  · intro e he
    simp only [createLsReadSignalMap, List.mem_cons, List.mem_singleton, List.not_mem_nil,
      or_false] at he
    rcases he with h | h <;> subst h <;> simp [layoutOk]

/-- C10, at concrete entries: `vehicleSpeed` (bits 33 to 47) and
`gpsLatitude` (bits 32 to 61). -/
theorem catalog_bit_layout_witness :
    layoutOk (⟨false, "vehicleSpeed", false, 33, 15, exactOps.ofDecimal 15625 6, 0, "km / h"⟩ :
        signalDef ℚ)
      ∧ layoutOk (⟨true, "gpsLatitude", true, 32, 30,
          exactOps.div (exactOps.ofDecimal 10 1) (exactOps.ofInt 3600000), 0, "deg"⟩ :
        signalDef ℚ) :=
  ⟨(catalog_bit_layout exactOps).1
      (1955, ⟨false, "vehicleSpeed", false, 33, 15, exactOps.ofDecimal 15625 6, 0, "km / h"⟩)
      (by simp [createHsReadSignalMap]),
   (catalog_bit_layout exactOps).2
      (0x102AA000, ⟨true, "gpsLatitude", true, 32, 30,
        exactOps.div (exactOps.ofDecimal 10 1) (exactOps.ofInt 3600000), 0, "deg"⟩)
      (by simp [createLsReadSignalMap])⟩

/-! ## A field of the full 64 bits -/

/-- For a length of 64 the mask `((1l << 64) - 1) << startBit` is 0: the shift
count is the width of `long`, the shift leaves 1, and `1 - 1 = 0`. -/
theorem fieldMask_full_width (startBit : Int) : fieldMask 64 startBit = 0 := by
  have h : sub64 (shl64 1 64) 1 = 0 := by decide
  unfold fieldMask
  rw [h]
  simp [shl64]

/-- With a length of 64 every frame yields the raw field 0. -/
theorem rawField_full_width {F : Type} (d : signalDef F) (data : Nat) (h : d.length = 64) :
    rawField d data = 0 := by
  unfold rawField
  rw [h, fieldMask_full_width]
  simp [shr64]

/-- C12 at the failing input: an unsigned definition with `length = 64` and
`startBit = 0` and the frame `FF FF FF FF FF FF FF FF`.  The frame integer is
`2 ^ 64 - 1`; the claim says the mask is `2 ^ 64 - 1` and the raw field the
whole frame integer, but the mask the source computes is 0, the raw field is
0 and `ReadParse` emits the value 0 (scale 1, offset 0). -/
theorem full_width_field_evaluation :
    frameInt [0xFF, 0xFF, 0xFF, 0xFF, 0xFF, 0xFF, 0xFF, 0xFF] 8 = 2 ^ 64 - 1
      ∧ fieldMask 64 0 = 0
      ∧ rawField (⟨false, "x", false, 0, 64, 1, 0, "u"⟩ : signalDef ℚ)
          (frameData [0xFF, 0xFF, 0xFF, 0xFF, 0xFF, 0xFF, 0xFF, 0xFF] 8) = 0
      ∧ ReadParse exactOps [(1, ⟨false, "x", false, 0, 64, 1, 0, "u"⟩)] 1
          [0xFF, 0xFF, 0xFF, 0xFF, 0xFF, 0xFF, 0xFF, 0xFF] 8 = [⟨"x", 0, "u"⟩] := by
  have ht : tempSignal (⟨false, "x", false, 0, 64, 1, 0, "u"⟩ : signalDef ℚ)
      (frameData [0xFF, 0xFF, 0xFF, 0xFF, 0xFF, 0xFF, 0xFF, 0xFF] 8) = 0 := by decide
  have hk : toInt ((1 : Nat) : Int) = 1 := by decide
  refine ⟨?_, fieldMask_full_width 0, rawField_full_width _ _ rfl, ?_⟩
  · rw [← frameData_eq_frameInt _ 8 (le_refl _)]
    decide
  · rw [ReadParse_singleton _ _ _ _ _ _ hk]
    simp only [parseSignal]
    rw [ht]
    simp [exactOps]

/-! ## The watermarks of the decoder and of the encoder -/

/-- The decoder round appends the decoded signals and warns when the depth it
leaves is `80` or more. -/
theorem ProcessReadMessages_body_eq {F : Type} (ops : DoubleOps F) (m : readSignalMap F)
    (processedReadQueue : List (canSignal F)) (c : canMessage) :
    (ProcessReadMessages_body ops m processedReadQueue c).queue
        = processedReadQueue ++ ReadParse ops m (toULong c.id) c.data c.length
      ∧ (ProcessReadMessages_body ops m processedReadQueue c).warning
        = if 80 ≤ (ProcessReadMessages_body ops m processedReadQueue c).queue.length
          then some (ProcessReadMessages_body ops m processedReadQueue c).queue.length
          else none := by
  have hq : (ProcessReadMessages_body ops m processedReadQueue c).queue
      = processedReadQueue ++ ReadParse ops m (toULong c.id) c.data c.length := by
    simp only [ProcessReadMessages_body]
    rw [foldl_push_eq_map (fun s => s)]
    simp
  refine ⟨hq, ?_⟩
  simp only [ProcessReadMessages_body, ge_iff_le]

/-- The encoder round, for a name that is a key, appends one frame and warns
when the depth it leaves is more than `80`. -/
theorem ProcessWriteMessages_body_of_key {F : Type} (ops : DoubleOps F) (m : writeMessageMap)
    (processedWriteQueue : List canMessage) (signal : canSignal F) (d : messageDef)
    (hname : at_ m signal.name = some d) :
    ∃ c : canMessage,
      ProcessWriteMessages_body ops m processedWriteQueue signal
        = .ok ⟨processedWriteQueue ++ [c],
            if 80 < processedWriteQueue.length + 1 then some (processedWriteQueue.length + 1)
            else none⟩ := by
  obtain ⟨c, hc⟩ := WriteParse_of_key m signal.name d (ops.toUnsignedLong signal.value) hname
  refine ⟨c, ?_⟩
  simp [ProcessWriteMessages_body, hc]

/-- C13 at the failing input: depth 80.  A decoder round that finds 79 signals
queued and decodes the frame 1958 (one signal, `fuelConsumption`) leaves the
decoded-signal queue at depth 80 and prints its warning; an encoder round that
finds 79 frames queued and encodes `hvacCommand` leaves the processed-write
queue at depth 80 and prints none.  Both rounds keep every queued item. -/
theorem watermark_at_depth_80_evaluation :
    (ProcessReadMessages_body exactOps (createHsReadSignalMap exactOps)
        (List.replicate 79 ⟨"s", 0, ""⟩) ⟨1958, [0, 0, 0, 0, 0, 0, 0, 0], 8⟩).queue.length = 80
      ∧ (ProcessReadMessages_body exactOps (createHsReadSignalMap exactOps)
        (List.replicate 79 ⟨"s", 0, ""⟩) ⟨1958, [0, 0, 0, 0, 0, 0, 0, 0], 8⟩).warning = some 80
      ∧ (ProcessWriteMessages_body exactOps createHsWriteMessageMap
          (List.replicate 79 ⟨0x7A0, [0], 1⟩) ⟨"hvacCommand", 1, ""⟩).map
            (fun s => (s.queue.length, s.warning)) = .ok (80, none) := by
  have hR := ProcessReadMessages_body_eq exactOps (createHsReadSignalMap exactOps)
    (List.replicate 79 ⟨"s", 0, ""⟩) ⟨1958, [0, 0, 0, 0, 0, 0, 0, 0], 8⟩
  have hlen : (ReadParse exactOps (createHsReadSignalMap exactOps) (toULong 1958)
      [0, 0, 0, 0, 0, 0, 0, 0] 8).length = 1 := by
    rw [ReadParse_eq_map, List.length_map]
    rfl
  have h80 : (ProcessReadMessages_body exactOps (createHsReadSignalMap exactOps)
      (List.replicate 79 ⟨"s", 0, ""⟩) ⟨1958, [0, 0, 0, 0, 0, 0, 0, 0], 8⟩).queue.length
      = 80 := by
    rw [hR.1, List.length_append, List.length_replicate, hlen]
  refine ⟨h80, ?_, ?_⟩
  · rw [hR.2, h80]
    rfl
  · obtain ⟨c, hc⟩ := ProcessWriteMessages_body_of_key exactOps createHsWriteMessageMap
      (List.replicate 79 ⟨0x7A0, [0], 1⟩) ⟨"hvacCommand", 1, ""⟩ ⟨0x7A0, 0x00, 0, 1⟩ rfl
    rw [hc]
    simp [Except.map]

/-! ## The encoder and the decoder on reversed bytes -/

theorem rawField_unsigned_layout {F : Type} (d : signalDef F) (data : Nat) (hdata : data < 2 ^ 64)
    (h1 : 0 ≤ d.length) (h63 : d.length ≤ 63) (hs : 0 ≤ d.startBit)
    (hsum : d.startBit + d.length ≤ 64) :
    rawField d data = (data / 2 ^ d.startBit.toNat) % 2 ^ d.length.toNat :=
  masked_field_eq data d.length d.startBit hdata h1 h63 hs hsum

/-- C14: `WriteParse` and `ReadParse` use opposite byte orders, and reversing
the bytes makes them inverse.  For a template of payload length 8 with default
payload `D` and injection offset `s` (a bit position 0 to 63) and every value
`v`, `WriteParse` stores byte `i` of `payloadInt = (D + v * 2 ^ s) mod 2 ^ 64`
counted from the least significant byte, and the frame integer `ReadParse`
rebuilds from the reversed bytes (byte `i` of the input is `data[7 - i]`) is
`payloadInt`.  Hence with `D = 0`, `1 ≤ n ≤ 63`, `s + n ≤ 64` and `v < 2 ^ n`,
an unsigned definition with `startBit = s` and `length = n` extracts the raw
field `v` from the reversed bytes. -/
theorem reversed_bytes_make_codec_inverse {F : Type} (m : writeMessageMap) (name : String)
    (tid : Int) (D : Nat) (s : Int) (v : Nat)
    (hname : at_ m name = some ⟨tid, D, s, 8⟩) (hD : D < 2 ^ 64) (hs0 : 0 ≤ s) (hs : s < 64) :
    ∃ c : canMessage, WriteParse m name v = .ok c ∧ c.data.length = 8
      ∧ (∀ i, i < 8 → (c.data.getD i 0).val = ((D + v * 2 ^ s.toNat) % 2 ^ 64 / 256 ^ i) % 256)
      ∧ (∀ i, i < 8 → c.data.reverse.getD i 0 = c.data.getD (7 - i) 0)
      ∧ frameData c.data.reverse 8 = (D + v * 2 ^ s.toNat) % 2 ^ 64
      ∧ frameData c.data.reverse 8
          = ∑ i in Finset.range 8, (c.data.reverse.getD i 0).val * 256 ^ (8 - 1 - i)
      ∧ (D = 0 → ∀ d : signalDef F, d.isSigned = false → d.startBit = s → 1 ≤ d.length →
          d.length ≤ 63 → s + d.length ≤ 64 → v < 2 ^ d.length.toNat →
            rawField d (frameData c.data.reverse 8) = v
            ∧ tempSignal d (frameData c.data.reverse 8) = (v : Int)) := by
  have hne : s ≠ -1 := by omega
  have hpay : payloadInt ⟨tid, D, s, 8⟩ v = (D + v * 2 ^ s.toNat) % 2 ^ 64 := by
    simp [payloadInt, hne]
  have hplt : (D + v * 2 ^ s.toNat) % 2 ^ 64 < 2 ^ 64 := Nat.mod_lt _ (by positivity)
  have hW := WriteParse_of_at m name ⟨tid, D, s, 8⟩ v hname
    (show (0 : Int) ≤ 8 by decide) (show (8 : Int) ≤ 8 by decide) (Or.inr ⟨hs0, hs⟩)
  rw [hpay] at hW
  have hlen : (storeBytes 8 ((D + v * 2 ^ s.toNat) % 2 ^ 64)).length = 8 := storeBytes_length _ _
  have hfd : frameData (storeBytes 8 ((D + v * 2 ^ s.toNat) % 2 ^ 64)).reverse 8
      = (D + v * 2 ^ s.toNat) % 2 ^ 64 := by
    rw [frameData_eq_frameInt _ 8 (le_refl _), frameInt_reverse_storeBytes 8 _ hplt]
    exact Nat.mod_eq_of_lt (by simpa using hplt)
  refine ⟨_, hW, hlen, ?_, ?_, hfd, ?_, ?_⟩
  · intro i hi
    exact storeBytes_getD 8 _ i hplt hi
  · intro i hi
    have h := getD_reverse_val (storeBytes 8 ((D + v * 2 ^ s.toNat) % 2 ^ 64)) i
      (by rw [hlen]; exact hi)
    rw [hlen] at h
    exact h
  · exact frameData_eq_frameInt _ 8 (le_refl _)
  · intro hD0 d hu hsb h1 h63 hsum hv
    subst hD0
    subst hsb
    have hp : v * 2 ^ d.startBit.toNat < 2 ^ 64 :=
      calc v * 2 ^ d.startBit.toNat
          < 2 ^ d.length.toNat * 2 ^ d.startBit.toNat :=
            Nat.mul_lt_mul_of_pos_right hv (by positivity)
        _ = 2 ^ (d.length.toNat + d.startBit.toNat) := by rw [pow_add]
        _ ≤ 2 ^ 64 := Nat.pow_le_pow_right (by decide) (by omega)
    show rawField d (frameData (storeBytes 8 ((0 + v * 2 ^ d.startBit.toNat) % 2 ^ 64)).reverse 8)
        = v
      ∧ tempSignal d (frameData (storeBytes 8 ((0 + v * 2 ^ d.startBit.toNat) % 2 ^ 64)).reverse 8)
        = (v : Int)
    rw [hfd, Nat.zero_add, Nat.mod_eq_of_lt hp]
    have hfield : (v * 2 ^ d.startBit.toNat / 2 ^ d.startBit.toNat) % 2 ^ d.length.toNat = v := by
      rw [Nat.mul_div_cancel _ (by positivity), Nat.mod_eq_of_lt hv]
    constructor
    · rw [rawField_unsigned_layout d _ hp (by omega) h63 hs0 hsum, hfield]
    · rw [tempSignal_unsigned d _ hp hu (by omega) h63 hs0 hsum, hfield]

/-- C14, at concrete inputs: `driverTemp` (default payload `0x0102AE07`, offset
32) with the value 5, and a template with default payload 0 and offset 32
with the value 5 decoded as an 8-bit field. -/
theorem reversed_bytes_make_codec_inverse_witness :
    (∃ c : canMessage, WriteParse createLsWriteMessageMap "driverTemp" 5 = .ok c
      ∧ frameData c.data.reverse 8 = (0x000000000102AE07 + 5 * 2 ^ (32 : Int).toNat) % 2 ^ 64)
    ∧ (∃ c : canMessage, WriteParse [("x", ⟨1, 0, 32, 8⟩)] "x" 5 = .ok c
      ∧ rawField (⟨false, "x", false, 32, 8, 1, 0, "u"⟩ : signalDef ℚ)
          (frameData c.data.reverse 8) = 5
      ∧ tempSignal (⟨false, "x", false, 32, 8, 1, 0, "u"⟩ : signalDef ℚ)
          (frameData c.data.reverse 8) = ((5 : Nat) : Int)) :=
  ⟨(reversed_bytes_make_codec_inverse (F := ℚ) createLsWriteMessageMap "driverTemp" 0x251
      0x000000000102AE07 32 5 (by decide) (by decide) (by decide) (by decide)).imp
      (fun _ h => ⟨h.1, h.2.2.2.2.1⟩),
   (reversed_bytes_make_codec_inverse (F := ℚ) [("x", ⟨1, 0, 32, 8⟩)] "x" 1 0 32 5
      (by decide) (by decide) (by decide) (by decide)).imp
      (fun _ h => ⟨h.1,
        h.2.2.2.2.2.2 rfl ⟨false, "x", false, 32, 8, 1, 0, "u"⟩ rfl rfl (by decide) (by decide)
          (by decide) (by decide)⟩)⟩

/-! ## Sign extension below the width of `int` -/

theorem shiftCount_lt (k : Int) : shiftCount 64 k < 64 := by
  unfold shiftCount
  have h1 : 0 ≤ k % ((64 : Nat) : Int) := Int.emod_nonneg _ (by decide)
  have h2 : k % ((64 : Nat) : Int) < ((64 : Nat) : Int) := Int.emod_lt_of_pos _ (by decide)
  omega

/-- The extracted field is below `2 ^ length`, wherever the field starts. -/
theorem rawField_lt {F : Type} (d : signalDef F) (data : Nat) (h0 : 0 ≤ d.length)
    (h63 : d.length ≤ 63) : rawField d data < 2 ^ d.length.toNat := by
  have hN : d.length.toNat ≤ 63 := by omega
  have hpN : (2 : Nat) ^ d.length.toNat ≤ 2 ^ 63 := Nat.pow_le_pow_right (by decide) hN
  have hpos : 0 < (2 : Nat) ^ d.length.toNat := by positivity
  have e1 : shl64 1 d.length = 2 ^ d.length.toNat := by
    unfold shl64
    rw [shiftCount_of_lt 64 d.length h0 (by omega), Nat.one_mul]
    exact Nat.mod_eq_of_lt (by omega)
  have e2 : sub64 (2 ^ d.length.toNat) 1 = 2 ^ d.length.toNat - 1 := by
    unfold sub64
    rw [Nat.mod_eq_of_lt (show (2 : Nat) ^ d.length.toNat < 2 ^ 64 by omega)]
    norm_num
    omega
  unfold rawField fieldMask shr64
  rw [e1, e2]
  unfold shl64
  have hk : 0 < 2 ^ shiftCount 64 d.startBit := by positivity
  have hle : (data &&& (2 ^ d.length.toNat - 1) * 2 ^ shiftCount 64 d.startBit % 2 ^ 64) % 2 ^ 64
      ≤ (2 ^ d.length.toNat - 1) * 2 ^ shiftCount 64 d.startBit :=
    le_trans (Nat.mod_le _ _) (le_trans Nat.and_le_right (Nat.mod_le _ _))
  have hdiv := Nat.div_le_div_right (c := 2 ^ shiftCount 64 d.startBit) hle
  rw [Nat.mul_div_cancel _ hk] at hdiv
  omega

theorem shl32_neg_one (length : Int) (h0 : 0 ≤ length) (h31 : length ≤ 31) :
    shl32 (-1) length = -(2 ^ length.toNat : Int) := by
  unfold shl32
  rw [shiftCount_of_lt 32 length h0 (by omega)]
  have hN : length.toNat ≤ 31 := by omega
  have hp : (2 : Int) ^ length.toNat ≤ 2 ^ 31 := pow_le_pow_right₀ (by norm_num) hN
  have hpos : (0 : Int) < 2 ^ length.toNat := by positivity
  rw [toInt_of_range _ (by omega) (by omega)]
  ring

/-- OR-ing `-(2 ^ N)` into a field below `2 ^ N` subtracts `2 ^ N`. -/
theorem or64_neg_two_pow (t N : Nat) (hN : N ≤ 63) (ht : t < 2 ^ N) :
    or64 (t : Int) (-(2 ^ N : Int)) = (t : Int) - 2 ^ N := by
  have hpN : (2 : Nat) ^ N ≤ 2 ^ 63 := Nat.pow_le_pow_right (by decide) hN
  have hpos : 0 < (2 : Nat) ^ N := by positivity
  have hsplit : (2 : Nat) ^ 64 = 2 ^ N * 2 ^ (64 - N) := by
    rw [← pow_add]
    congr 1
    omega
  have hdisj : 2 ^ N * (2 ^ (64 - N) - 1) ||| t = 2 ^ 64 - 2 ^ N + t := by
    rw [← Nat.mul_add_lt_is_or ht, Nat.mul_sub, Nat.mul_one, ← hsplit]
  rw [Nat.mul_sub, Nat.mul_one, ← hsplit] at hdisj
  have hc : (2 : Int) ^ N = (((2 : Nat) ^ N : Nat) : Int) := by norm_cast
  rw [hc]
  generalize (2 : Nat) ^ N = x at ht hpN hpos hdisj
  have ht1 : toULong (t : Int) = t := by
    unfold toULong
    omega
  have ht2 : toULong (-(x : Int)) = 2 ^ 64 - x := by
    unfold toULong
    omega
  unfold or64
  rw [ht1, ht2, Nat.lor_comm, hdisj]
  unfold toLong
  split <;> omega

theorem testBit_top_iff (r N : Nat) (hN : 1 ≤ N) (hr : r < 2 ^ N) :
    r.testBit (N - 1) = true ↔ 2 ^ (N - 1) ≤ r := by
  have h2 : (2 : Nat) ^ N = 2 ^ (N - 1) * 2 := by
    rw [← pow_succ]
    congr 1
    omega
  have hpos : 0 < (2 : Nat) ^ (N - 1) := by positivity
  have hq : r / 2 ^ (N - 1) < 2 := Nat.div_lt_of_lt_mul (by omega)
  rw [Nat.testBit_to_div_mod]
  simp only [decide_eq_true_eq]
  constructor
  · intro h
    by_contra hlt
    have h0 : r / 2 ^ (N - 1) = 0 := Nat.div_eq_of_lt (by omega)
    omega
  · intro h
    have h1 : 1 ≤ r / 2 ^ (N - 1) := (Nat.one_le_div_iff hpos).mpr h
    omega

/-- For a signed definition of at most 31 bits `tempSignal` is the field,
less `2 ^ length` when the top bit of the field is set. -/
theorem tempSignal_signed {F : Type} (d : signalDef F) (data : Nat) (hsg : d.isSigned = true)
    (h1 : 1 ≤ d.length) (h31 : d.length ≤ 31) :
    tempSignal d data
      = if 2 ^ (d.length.toNat - 1) ≤ rawField d data
        then (rawField d data : Int) - 2 ^ d.length.toNat else (rawField d data : Int) := by
  have hr := rawField_lt d data (by omega) (by omega)
  have hN : d.length.toNat ≤ 31 := by omega
  have hp31 : (2 : Nat) ^ d.length.toNat ≤ 2 ^ 31 := Nat.pow_le_pow_right (by decide) hN
  have hpos : 0 < (2 : Nat) ^ (d.length.toNat - 1) := by positivity
  have ht : toLong (rawField d data) = (rawField d data : Int) := toLong_of_lt _ (by omega)
  have hk : shiftCount 64 (toInt (d.length - 1)) = d.length.toNat - 1 := by
    rw [toInt_of_range _ (by omega) (by omega), shiftCount_of_lt 64 _ (by omega) (by omega)]
    omega
  have hsar : sar64 (rawField d data : Int) (toInt (d.length - 1))
      = ((rawField d data / 2 ^ (d.length.toNat - 1) : Nat) : Int) := by
    unfold sar64
    rw [hk]
    norm_cast
  unfold tempSignal
  simp only [hsg, true_and]
  rw [show shr64 (data &&& fieldMask d.length d.startBit) d.startBit = rawField d data from rfl,
    ht, hsar, shl32_neg_one d.length (by omega) h31]
  by_cases htop : 2 ^ (d.length.toNat - 1) ≤ rawField d data
  · have hne : ((rawField d data / 2 ^ (d.length.toNat - 1) : Nat) : Int) ≠ 0 := by
      have := (Nat.one_le_div_iff hpos).mpr htop
      omega
    rw [if_pos hne, if_pos htop]
    exact or64_neg_two_pow _ _ (by omega) hr
  · have h0 : rawField d data / 2 ^ (d.length.toNat - 1) = 0 := Nat.div_eq_of_lt (by omega)
    rw [h0, if_neg htop]
    simp

/-- C15: below the width of `int` the sign extension of `ReadParse` is exact.
For a signed definition with `1 ≤ length ≤ 31` and `startBit + length ≤ 64` and
every frame, the field extracted is below `2 ^ length`, the `int` expression
`-1 << length` is `-(2 ^ length)`, and the integer that is scaled lies in
`[-2 ^ (length - 1), 2 ^ (length - 1))`, is congruent to the field modulo
`2 ^ length` and is negative exactly when the top bit of the field is set; for
`startBit ≥ 0` and a frame of at most 8 bytes the field consists of the bits
`startBit .. startBit + length - 1` of the frame integer.  The signed
definitions of the shipped catalogs are `motorTorque` and `motorRpm` (16
bits), `gpsLatitude` (30) and `gpsLongitude` (31), all within these bounds. -/
theorem sign_extension_exact_below_int_width {F : Type} (ops : DoubleOps F) (d : signalDef F)
    (b : List UChar) (L : Nat) (hsg : d.isSigned = true) (h1 : 1 ≤ d.length)
    (h31 : d.length ≤ 31) (hsum : d.startBit + d.length ≤ 64) :
    rawField d (frameData b L) < 2 ^ d.length.toNat
      ∧ shl32 (-1) d.length = -(2 ^ d.length.toNat : Int)
      ∧ -(2 ^ (d.length.toNat - 1) : Int) ≤ tempSignal d (frameData b L)
      ∧ tempSignal d (frameData b L) < 2 ^ (d.length.toNat - 1)
      ∧ tempSignal d (frameData b L) ≡ (rawField d (frameData b L) : Int)
          [ZMOD 2 ^ d.length.toNat]
      ∧ (tempSignal d (frameData b L) < 0
          ↔ (rawField d (frameData b L)).testBit (d.length.toNat - 1) = true)
      ∧ (0 ≤ d.startBit → L ≤ 8 →
          rawField d (frameData b L)
            = ((∑ i in Finset.range L, (b.getD i 0).val * 256 ^ (L - 1 - i))
                / 2 ^ d.startBit.toNat) % 2 ^ d.length.toNat)
      ∧ ((createHsReadSignalMap ops ++ createLsReadSignalMap ops).filter
            (fun e => e.2.isSigned)).map (fun e => (e.2.name, e.2.length))
          = [("motorTorque", 16), ("motorRpm", 16), ("gpsLatitude", 30), ("gpsLongitude", 31)]
      ∧ (∀ e ∈ createHsReadSignalMap ops ++ createLsReadSignalMap ops, e.2.isSigned = true →
          1 ≤ e.2.length ∧ e.2.length ≤ 31 ∧ 0 ≤ e.2.startBit
            ∧ e.2.startBit + e.2.length ≤ 64) := by
  have hr := rawField_lt d (frameData b L) (by omega) (by omega)
  have hN1 : 1 ≤ d.length.toNat := by omega
  have h2 : (2 : Nat) ^ d.length.toNat = 2 ^ (d.length.toNat - 1) * 2 := by
    rw [← pow_succ]
    congr 1
    omega
  have hc : (2 : Int) ^ d.length.toNat = (((2 : Nat) ^ d.length.toNat : Nat) : Int) := by
    norm_cast
  have hc1 : (2 : Int) ^ (d.length.toNat - 1)
      = (((2 : Nat) ^ (d.length.toNat - 1) : Nat) : Int) := by
    norm_cast
  have ht := tempSignal_signed d (frameData b L) hsg h1 h31
  have htop := testBit_top_iff _ _ hN1 hr
  refine ⟨hr, shl32_neg_one d.length (by omega) h31, ?_, ?_, ?_, ?_, ?_, ?_, ?_⟩
  · rw [ht, hc, hc1]
    split <;> omega
  · rw [ht, hc, hc1]
    split <;> omega
  · rw [ht]
    split
    · rw [Int.modEq_iff_dvd]
      exact ⟨1, by ring⟩
    · exact Int.ModEq.refl _
  · rw [htop, ht, hc]
    split <;> omega
  · intro hs0 hL
    have hdata : frameData b L < 2 ^ 64 := by
      rw [frameData_eq_frameInt b L hL]
      exact frameInt_lt_two_pow b L hL
    rw [rawField_unsigned_layout d _ hdata (by omega) (by omega) hs0 hsum,
      frameData_eq_frameInt b L hL]
    rfl
  · rfl
  · intro e he hsig
    simp only [createHsReadSignalMap, createLsReadSignalMap, List.cons_append, List.nil_append,
      List.mem_cons, List.mem_singleton, List.not_mem_nil, or_false] at he
    rcases he with h | h | h | h | h | h | h | h | h | h | h | h | h | h | h | h | h | h | h | h
      <;> subst h <;> simp at hsig ⊢

/-- C15, at a concrete input: `gpsLongitude` (signed, 31 bits at bit 0) on the
frame `00 00 00 00 7F FF FF FF`, whose field has its top bit set. -/
theorem sign_extension_exact_below_int_width_witness :
    -(2 ^ ((31 : Int).toNat - 1) : Int)
        ≤ tempSignal (⟨true, "gpsLongitude", true, 0, 31, 1, 0, "deg"⟩ : signalDef ℚ)
            (frameData [0, 0, 0, 0, 0x7F, 0xFF, 0xFF, 0xFF] 8)
      ∧ tempSignal (⟨true, "gpsLongitude", true, 0, 31, 1, 0, "deg"⟩ : signalDef ℚ)
            (frameData [0, 0, 0, 0, 0x7F, 0xFF, 0xFF, 0xFF] 8) < 2 ^ ((31 : Int).toNat - 1)
      ∧ (tempSignal (⟨true, "gpsLongitude", true, 0, 31, 1, 0, "deg"⟩ : signalDef ℚ)
            (frameData [0, 0, 0, 0, 0x7F, 0xFF, 0xFF, 0xFF] 8) < 0
          ↔ (rawField (⟨true, "gpsLongitude", true, 0, 31, 1, 0, "deg"⟩ : signalDef ℚ)
              (frameData [0, 0, 0, 0, 0x7F, 0xFF, 0xFF, 0xFF] 8)).testBit
                ((31 : Int).toNat - 1) = true)
      ∧ rawField (⟨true, "gpsLongitude", true, 0, 31, 1, 0, "deg"⟩ : signalDef ℚ)
            (frameData [0, 0, 0, 0, 0x7F, 0xFF, 0xFF, 0xFF] 8)
          = ((∑ i in Finset.range 8,
                (([0, 0, 0, 0, 0x7F, 0xFF, 0xFF, 0xFF] : List UChar).getD i 0).val
                  * 256 ^ (8 - 1 - i))
              / 2 ^ (0 : Int).toNat) % 2 ^ (31 : Int).toNat :=
  have h := sign_extension_exact_below_int_width exactOps
    (⟨true, "gpsLongitude", true, 0, 31, 1, 0, "deg"⟩ : signalDef ℚ)
    [0, 0, 0, 0, 0x7F, 0xFF, 0xFF, 0xFF] 8 rfl (by decide) (by decide) (by decide)
  ⟨h.2.2.1, h.2.2.2.1, h.2.2.2.2.2.1, h.2.2.2.2.2.2.1 (by decide) (by decide)⟩

end CanReadWriter
